import Mathlib

/-!
# Alignment adapters of `Flashcart` (`device.h`)

A shallow embedding of the three template wrappers `read_wrapper`,
`erase_wrapper` and `write_wrapper` of `class Flashcart`, together with the
`PAGE_ROUND_DOWN` macro they use.

* `uint32_t` values are natural numbers; every subtraction of the source is
  written with its wrap-around modulo `2 ^ 32`.
* `uint8_t` values are natural numbers; the wrappers only move bytes, they
  never compute with them.
* A buffer reached through a pointer is the list of the bytes from the pointer
  on.  A store or copy that leaves the buffer is undefined behaviour in C++
  and is `none` here.
* The template argument `fn` and the virtual methods `readFlash` and
  `writeFlash` are arguments of the embedded wrappers.
* The state carries, next to the device content, a log of the calls made, the
  sizes of the blocks allocated and the number of blocks not yet freed, so
  that claims about calls and allocations can be stated.
* `read_wrapper`, `erase_wrapper` and `write_wrapper` take `malloc` to succeed;
  `read_wrapper_run`, `erase_wrapper_run` and `write_wrapper_run` repeat them
  with an allocation that may fail and keep the state reached when a run
  becomes undefined.
-/

namespace Flashcart

/-- The number of `uint32_t` values, `2 ^ 32`. -/
def U32 : Nat := 2 ^ 32

/-- The macro `PAGE_ROUND_DOWN(x, s)`, that is `((x) & (~((s)-1)))`, on `uint32_t`
operands: `(s)-1` wraps modulo `2 ^ 32` and `~` flips the 32 bits. -/
def PAGE_ROUND_DOWN (x s : Nat) : Nat :=
  x &&& ((U32 - 1) ^^^ ((s + U32 - 1) % U32))

/-- The `uint32_t` subtraction `a - b` of the source. -/
def sub32 (a b : Nat) : Nat := (a + U32 - b) % U32

/-- Content of the flash device: the byte stored at each address. -/
abbrev Mem := Nat → Nat

/-- One call that leaves a wrapper: the raw device function `fn` or one of the
virtual methods `readFlash` and `writeFlash`, with the arguments passed. -/
inductive Call where
  | rawRead (address : Nat)
  | rawErase (address : Nat)
  | rawWrite (address : Nat) (buf : List Nat)
  | readFlash (address length : Nat)
  | writeFlash (address length : Nat) (buf : List Nat)
deriving DecidableEq, Repr

/-- The state a wrapper runs in.  `flash` is the device content.  `junk` gives
the indeterminate bytes a fresh `malloc` block holds, `live` counts the blocks
obtained from `malloc` and not yet passed to `free`, and `log` records the
calls made so far, oldest first.  `allocs` records the size of every block
obtained from `malloc` so far, oldest first.  `max_length` is the member
`m_max_length` of the class. -/
structure Cart where
  flash : Mem
  junk : Nat → Nat
  live : Nat
  log : List Call
  allocs : List Nat
  max_length : Nat

/-- The block `malloc(size)` returns: `size` bytes of indeterminate content. -/
def malloc (c : Cart) (size : Nat) : List Nat :=
  (List.range size).map c.junk

/-- Store the bytes `src` into the buffer `dst` from index `off` on.  The store
must stay inside `dst`. -/
def poke (dst : List Nat) (off : Nat) (src : List Nat) : Option (List Nat) :=
  if off + src.length ≤ dst.length then
    some (dst.take off ++ src ++ dst.drop (off + src.length))
  else none

/-- The call `memcpy(dst + dOff, src + sOff, n)`.  Both the bytes read and the
bytes written must lie inside their buffers. -/
def memcpy (dst : List Nat) (dOff : Nat) (src : List Nat) (sOff n : Nat) :
    Option (List Nat) :=
  if sOff + n ≤ src.length then poke dst dOff ((src.drop sOff).take n) else none

/-- `Flashcart::read_wrapper<T, fn, alignment>(address, length, buffer)`.
`fn flash round_addr` is the block the raw read stores at the pointer it is
given.  The result is the returned value, the caller's buffer after the call
and the state after the call.  `malloc` is taken to succeed, so the test
`buf != buffer` after the raw call holds exactly when the scratch block was
allocated, and the two tests of the source select one branch here. -/
def read_wrapper (fn : Mem → Nat → List Nat) (alignment : Nat)
    (c : Cart) (address length : Nat) (buffer : List Nat) :
    Option (Nat × List Nat × Cart) :=
  let round_addr := PAGE_ROUND_DOWN address alignment
  let offset := sub32 address round_addr
  let length := min length (sub32 alignment offset)
  if length < alignment ∨ offset ≠ 0 then do
    let buf := malloc c alignment
    let c := { c with live := c.live + 1, allocs := c.allocs ++ [alignment] }
    let c := { c with log := c.log ++ [Call.rawRead round_addr] }
    let buf ← poke buf 0 (fn c.flash round_addr)
    let buffer ← memcpy buffer 0 buf offset length
    let c := { c with live := c.live - 1 }
    pure (length, buffer, c)
  else do
    let c := { c with log := c.log ++ [Call.rawRead round_addr] }
    let buffer ← poke buffer 0 (fn c.flash round_addr)
    pure (length, buffer, c)

/-- `Flashcart::erase_wrapper<T, fn, alignment>(address)`.  `fn flash round_addr`
is the device content after the raw erase.  `readFlash flash a k` is the value
`readFlash` returns and the bytes it stores at the pointer it is given;
`writeFlash flash a k buf` is the value `writeFlash` returns and the device
content after it.  Both returned values are discarded, as in the source.  The
pointer `extra` is `none` while it is `nullptr`. -/
def erase_wrapper (fn : Mem → Nat → Mem)
    (readFlash : Mem → Nat → Nat → Nat × List Nat)
    (writeFlash : Mem → Nat → Nat → List Nat → Nat × Mem)
    (alignment : Nat) (c : Cart) (address : Nat) : Option (Nat × Cart) :=
  let round_addr := PAGE_ROUND_DOWN address alignment
  let offset := sub32 address round_addr
  do
    let (extra, c) ←
      (if offset ≠ 0 then do
        let extra := malloc c offset
        let c := { c with live := c.live + 1, allocs := c.allocs ++ [offset] }
        let c := { c with log := c.log ++ [Call.readFlash round_addr offset] }
        let extra ← poke extra 0 (readFlash c.flash round_addr offset).2
        pure (some extra, c)
      else pure (none, c) : Option (Option (List Nat) × Cart))
    let c := { c with flash := fn c.flash round_addr,
                      log := c.log ++ [Call.rawErase round_addr] }
    match extra with
    | some extra =>
      let c := { c with flash := (writeFlash c.flash round_addr offset extra).2,
                        log := c.log ++ [Call.writeFlash round_addr offset extra] }
      let c := { c with live := c.live - 1 }
      pure (sub32 alignment offset, c)
    | none => pure (sub32 alignment offset, c)

/-- `Flashcart::write_wrapper<T, fn, alignment>(address, length, buffer)`.
`fn flash round_addr buf` is the device content after the raw write was given
the pointer to `buf`.  `readFlash` is as in `erase_wrapper`.  As in
`read_wrapper`, the test `buf != buffer` selects the branch that allocated. -/
def write_wrapper (fn : Mem → Nat → List Nat → Mem)
    (readFlash : Mem → Nat → Nat → Nat × List Nat)
    (alignment : Nat) (c : Cart) (address length : Nat) (buffer : List Nat) :
    Option (Nat × Cart) :=
  let round_addr := PAGE_ROUND_DOWN address alignment
  let offset := sub32 address round_addr
  let length := min length (sub32 alignment offset)
  if length < alignment ∨ offset ≠ 0 then do
    let buf := malloc c alignment
    let c := { c with live := c.live + 1, allocs := c.allocs ++ [alignment] }
    let c := { c with log := c.log ++ [Call.readFlash round_addr alignment] }
    let buf ← poke buf 0 (readFlash c.flash round_addr alignment).2
    let buf ← memcpy buf offset buffer 0 length
    let c := { c with flash := fn c.flash round_addr buf,
                      log := c.log ++ [Call.rawWrite round_addr buf] }
    let c := { c with live := c.live - 1 }
    pure (length, c)
  else
    let c := { c with flash := fn c.flash round_addr buffer,
                      log := c.log ++ [Call.rawWrite round_addr buffer] }
    pure (length, c)

/-! ## The device the wrappers run against -/

/-- Modelled from the spec: the raw read function of a concrete device, which
is not part of `device.h`.  It returns the stored block of `alignment` bytes at
the address it is given. -/
def rawReadBlock (alignment : Nat) (flash : Mem) (a : Nat) : List Nat :=
  (List.range alignment).map (fun i => flash (a + i))

/-- Modelled from the spec: the raw erase function of a concrete device.  It
sets the whole block of `alignment` bytes at the address it is given to the
erased-state value `0xFF`. -/
def rawEraseBlock (alignment : Nat) (flash : Mem) (a : Nat) : Mem :=
  fun x => if a ≤ x ∧ x < a + alignment then 0xFF else flash x

/-- Modelled from the spec: the raw write function of a concrete device.  It
replaces exactly the block of `alignment` bytes at the address it is given by
the first `alignment` bytes found at the pointer. -/
def rawWriteBlock (alignment : Nat) (flash : Mem) (a : Nat) (buf : List Nat) : Mem :=
  fun x => if a ≤ x ∧ x < a + alignment then buf.getD (x - a) 0 else flash x

/-- Modelled from the spec: the virtual method `readFlash`, whose body is not
part of `device.h`.  It fills the buffer with the `k` device bytes at
`[a, a + k)` and returns `k`. -/
def readFlashAll (flash : Mem) (a k : Nat) : Nat × List Nat :=
  (k, (List.range k).map (fun i => flash (a + i)))

/-- Modelled from the spec: the virtual method `writeFlash`, whose body is not
part of `device.h`.  It stores the first `k` bytes of the buffer at `[a, a + k)`,
changes nothing else and returns `k`. -/
def writeFlashAll (flash : Mem) (a k : Nat) (buf : List Nat) : Nat × Mem :=
  (k, fun x => if a ≤ x ∧ x < a + k then buf.getD (x - a) 0 else flash x)

/-- The alignments a `uint32_t` template argument can hold that are powers of
two: `2 ^ k` with `k < 32`. -/
def IsPow2 (alignment : Nat) : Prop := ∃ k, k < 32 ∧ alignment = 2 ^ k

/-- The address a raw device call was given; `none` for the calls of
`readFlash` and `writeFlash`. -/
def Call.rawAddress : Call → Option Nat
  | Call.rawRead a => some a
  | Call.rawErase a => some a
  | Call.rawWrite a _ => some a
  | Call.readFlash _ _ => none
  | Call.writeFlash _ _ _ => none

/-- Whether a call is a raw device call, a call of the template argument `fn`. -/
def Call.isRaw : Call → Bool
  | Call.rawRead _ => true
  | Call.rawErase _ => true
  | Call.rawWrite _ _ => true
  | Call.readFlash _ _ => false
  | Call.writeFlash _ _ _ => false

/-- Whether a call is an auxiliary call, a call of `readFlash` or `writeFlash`. -/
def Call.isAux : Call → Bool
  | Call.rawRead _ => false
  | Call.rawErase _ => false
  | Call.rawWrite _ _ => false
  | Call.readFlash _ _ => true
  | Call.writeFlash _ _ _ => true

/-- A state to run examples in: a device of 16 MiB in the erased state, no
outstanding allocation and an empty log. -/
def erasedCart : Cart :=
  { flash := fun _ => 0xFF, junk := fun _ => 0, live := 0, log := [], allocs := [],
    max_length := 0x1000000 }

/-- A state to run examples in: a device of 16 MiB whose byte at address `x`
is `x % 251`, a fresh allocation holds `0xCD` bytes, no outstanding allocation
and an empty log. -/
def rampCart : Cart :=
  { flash := fun x => x % 251, junk := fun _ => 0xCD, live := 0, log := [], allocs := [],
    max_length := 0x1000000 }

/-! ## The always-scratch variants -/

/-- The variant of `read_wrapper` that goes through an `alignment`-byte scratch
buffer on every request: raw read into the scratch buffer, then copy the slice
out.  It is the slow path of the read adapter, taken unconditionally, and is
what `read_wrapper` is compared with. -/
def read_wrapper_scratch (fn : Mem → Nat → List Nat) (alignment : Nat)
    (c : Cart) (address length : Nat) (buffer : List Nat) :
    Option (Nat × List Nat × Cart) :=
  let round_addr := PAGE_ROUND_DOWN address alignment
  let offset := sub32 address round_addr
  let length := min length (sub32 alignment offset)
  do
    let buf := malloc c alignment
    let c := { c with live := c.live + 1, allocs := c.allocs ++ [alignment] }
    let c := { c with log := c.log ++ [Call.rawRead round_addr] }
    let buf ← poke buf 0 (fn c.flash round_addr)
    let buffer ← memcpy buffer 0 buf offset length
    let c := { c with live := c.live - 1 }
    pure (length, buffer, c)

/-- The variant of `write_wrapper` that goes through an `alignment`-byte scratch
buffer on every request: `readFlash` into the scratch buffer, overlay the
caller's data, raw write.  It is the slow path of the write adapter, taken
unconditionally, and is what `write_wrapper` is compared with. -/
def write_wrapper_scratch (fn : Mem → Nat → List Nat → Mem)
    (readFlash : Mem → Nat → Nat → Nat × List Nat)
    (alignment : Nat) (c : Cart) (address length : Nat) (buffer : List Nat) :
    Option (Nat × Cart) :=
  let round_addr := PAGE_ROUND_DOWN address alignment
  let offset := sub32 address round_addr
  let length := min length (sub32 alignment offset)
  do
    let buf := malloc c alignment
    let c := { c with live := c.live + 1, allocs := c.allocs ++ [alignment] }
    let c := { c with log := c.log ++ [Call.readFlash round_addr alignment] }
    let buf ← poke buf 0 (readFlash c.flash round_addr alignment).2
    let buf ← memcpy buf offset buffer 0 length
    let c := { c with flash := fn c.flash round_addr buf,
                      log := c.log ++ [Call.rawWrite round_addr buf] }
    let c := { c with live := c.live - 1 }
    pure (length, c)

/-! ## Sequences of requests -/

/-- One request a caller makes to one of the three wrappers. -/
inductive Request where
  | read (address length : Nat) (buffer : List Nat)
  | write (address length : Nat) (buffer : List Nat)
  | erase (address : Nat)

/-- A request a caller can make: the address is a `uint32_t` and the buffer
holds at least `length` bytes. -/
def Request.ok : Request → Bool
  | Request.read address length buffer => decide (address < U32 ∧ length ≤ buffer.length)
  | Request.write address length buffer => decide (address < U32 ∧ length ≤ buffer.length)
  | Request.erase address => decide (address < U32)

/-- Serve one request on the modelled device with the wrapper of its kind and
keep the state the wrapper leaves. -/
def serve (alignment : Nat) (c : Cart) : Request → Option Cart
  | Request.read address length buffer =>
    (read_wrapper (rawReadBlock alignment) alignment c address length buffer).map
      (fun r => r.2.2)
  | Request.write address length buffer =>
    (write_wrapper (rawWriteBlock alignment) readFlashAll alignment c address length
      buffer).map (fun r => r.2)
  | Request.erase address =>
    (erase_wrapper (rawEraseBlock alignment) readFlashAll writeFlashAll alignment c
      address).map (fun r => r.2)

/-- Serve a sequence of requests one after the other. -/
def serveAll (alignment : Nat) (c : Cart) : List Request → Option Cart
  | [] => some c
  | r :: rs => (serve alignment c r).bind (fun c1 => serveAll alignment c1 rs)

/-! ## Failing operations -/

/-- A `readFlash` that fails: it stores no byte at the pointer it is given and
reports that 0 bytes were read. -/
def readFlashFail (_flash : Mem) (_a _k : Nat) : Nat × List Nat := (0, [])

/-- A `writeFlash` that fails: it leaves the device as it is and reports that 0
bytes were written. -/
def writeFlashFail (flash : Mem) (_a _k : Nat) (_buf : List Nat) : Nat × Mem := (0, flash)

/-! ## Runs with an allocator that may fail -/

/-- How a run of a wrapper ends: it returns a value, or it reaches undefined
behaviour.  Either way the state reached, and with it the calls made up to
there, is kept. -/
inductive Run (α : Type) where
  | returned (value : α) (c : Cart)
  | undefined (c : Cart)

/-- Store the bytes `src` through a pointer that may be null, from its start
on.  Storing no byte does not touch the pointer; storing a byte through the
null pointer is undefined. -/
def pokePtr (p : Option (List Nat)) (src : List Nat) : Option (Option (List Nat)) :=
  match p with
  | some buf => (poke buf 0 src).map some
  | none =>
    match src with
    | [] => some none
    | _ :: _ => none

/-- The call `memcpy(dst, src + sOff, n)` where `src` may be null.  Copying no
byte does not touch the pointer; reading a byte through the null pointer is
undefined. -/
def memcpyFrom (dst : List Nat) (src : Option (List Nat)) (sOff n : Nat) :
    Option (List Nat) :=
  match src with
  | some buf => memcpy dst 0 buf sOff n
  | none => if n = 0 then some dst else none

/-- The call `memcpy(dst + dOff, src, n)` where `dst` may be null.  Copying no
byte does not touch the pointer; storing a byte through the null pointer is
undefined. -/
def memcpyTo (dst : Option (List Nat)) (dOff : Nat) (src : List Nat) (n : Nat) :
    Option (Option (List Nat)) :=
  match dst with
  | some buf => (memcpy buf dOff src 0 n).map some
  | none => if n = 0 then some none else none

/-- `Flashcart::read_wrapper` with the result of `malloc` made explicit: with
`heap = true` the allocation succeeds, with `heap = false` `malloc` returns the
null pointer, which is `none`.  The source does not test the pointer, so the
raw read is handed it as it is.  The run is undefined when a byte is stored or
read through the null pointer.  After the raw call `buf != buffer` holds, for
the null pointer too, and `free` of the null pointer does nothing. -/
def read_wrapper_run (heap : Bool) (fn : Mem → Nat → List Nat) (alignment : Nat)
    (c : Cart) (address length : Nat) (buffer : List Nat) : Run (Nat × List Nat) :=
  let round_addr := PAGE_ROUND_DOWN address alignment
  let offset := sub32 address round_addr
  let length := min length (sub32 alignment offset)
  if length < alignment ∨ offset ≠ 0 then
    let buf : Option (List Nat) := if heap then some (malloc c alignment) else none
    let c := if heap then { c with live := c.live + 1, allocs := c.allocs ++ [alignment] }
      else c
    let c := { c with log := c.log ++ [Call.rawRead round_addr] }
    match pokePtr buf (fn c.flash round_addr) with
    | none => Run.undefined c
    | some buf =>
      match memcpyFrom buffer buf offset length with
      | none => Run.undefined c
      | some buffer =>
        match buf with
        | some _ => Run.returned (length, buffer) { c with live := c.live - 1 }
        | none => Run.returned (length, buffer) c
  else
    let c := { c with log := c.log ++ [Call.rawRead round_addr] }
    match poke buffer 0 (fn c.flash round_addr) with
    | none => Run.undefined c
    | some buffer => Run.returned (length, buffer) c

/-- `Flashcart::erase_wrapper` with the result of `malloc` made explicit, as in
`read_wrapper_run`.  `readFlash` is handed the pointer as it is; the run is
undefined when it stores a byte through the null pointer.  When it stores
nothing the run goes on with `extra == nullptr`: the raw erase is made and the
restoring `writeFlash` and the `free` are skipped. -/
def erase_wrapper_run (heap : Bool) (fn : Mem → Nat → Mem)
    (readFlash : Mem → Nat → Nat → Nat × List Nat)
    (writeFlash : Mem → Nat → Nat → List Nat → Nat × Mem)
    (alignment : Nat) (c : Cart) (address : Nat) : Run Nat :=
  let round_addr := PAGE_ROUND_DOWN address alignment
  let offset := sub32 address round_addr
  if offset ≠ 0 then
    let extra : Option (List Nat) := if heap then some (malloc c offset) else none
    let c := if heap then { c with live := c.live + 1, allocs := c.allocs ++ [offset] }
      else c
    let c := { c with log := c.log ++ [Call.readFlash round_addr offset] }
    match pokePtr extra (readFlash c.flash round_addr offset).2 with
    | none => Run.undefined c
    | some extra =>
      let c := { c with flash := fn c.flash round_addr,
                        log := c.log ++ [Call.rawErase round_addr] }
      match extra with
      | some extra =>
        let c := { c with flash := (writeFlash c.flash round_addr offset extra).2,
                          log := c.log ++ [Call.writeFlash round_addr offset extra] }
        let c := { c with live := c.live - 1 }
        Run.returned (sub32 alignment offset) c
      | none => Run.returned (sub32 alignment offset) c
  else
    let c := { c with flash := fn c.flash round_addr,
                      log := c.log ++ [Call.rawErase round_addr] }
    Run.returned (sub32 alignment offset) c

/-- `Flashcart::write_wrapper` with the result of `malloc` made explicit, as in
`read_wrapper_run` and `erase_wrapper_run`.  The raw write is handed the pointer
as it is: the bytes it can read there are those of the scratch block, and none
at the null pointer. -/
def write_wrapper_run (heap : Bool) (fn : Mem → Nat → List Nat → Mem)
    (readFlash : Mem → Nat → Nat → Nat × List Nat)
    (alignment : Nat) (c : Cart) (address length : Nat) (buffer : List Nat) : Run Nat :=
  let round_addr := PAGE_ROUND_DOWN address alignment
  let offset := sub32 address round_addr
  let length := min length (sub32 alignment offset)
  if length < alignment ∨ offset ≠ 0 then
    let buf : Option (List Nat) := if heap then some (malloc c alignment) else none
    let c := if heap then { c with live := c.live + 1, allocs := c.allocs ++ [alignment] }
      else c
    let c := { c with log := c.log ++ [Call.readFlash round_addr alignment] }
    match pokePtr buf (readFlash c.flash round_addr alignment).2 with
    | none => Run.undefined c
    | some buf =>
      match memcpyTo buf offset buffer length with
      | none => Run.undefined c
      | some buf =>
        match buf with
        | some buf =>
          let c := { c with flash := fn c.flash round_addr buf,
                            log := c.log ++ [Call.rawWrite round_addr buf] }
          let c := { c with live := c.live - 1 }
          Run.returned length c
        | none =>
          let c := { c with flash := fn c.flash round_addr [],
                            log := c.log ++ [Call.rawWrite round_addr []] }
          Run.returned length c
  else
    let c := { c with flash := fn c.flash round_addr buffer,
                      log := c.log ++ [Call.rawWrite round_addr buffer] }
    Run.returned length c

/-! ## A `writeFlash` that erases -/

/-- Modelled from the spec: a `writeFlash`, whose body is not part of
`device.h`, that erases through `erase_wrapper` of the same alignment, only at
the start address of its write, and then stores the bytes.  `inner` is the
`writeFlash` the nested `erase_wrapper` calls for its own compensation write. -/
def writeFlashErasing (alignment : Nat) (inner : Mem → Nat → Nat → List Nat → Nat × Mem)
    (flash : Mem) (a k : Nat) (buf : List Nat) : Nat × Mem :=
  match erase_wrapper (rawEraseBlock alignment) readFlashAll inner alignment
      { flash := flash, junk := fun _ => 0, live := 0, log := [], allocs := [],
        max_length := 0 } a with
  | some (_, c) => writeFlashAll c.flash a k buf
  | none => (0, flash)

/-- The recursion `writeFlash -> erase_wrapper -> writeFlash -> ...` cut off at
nesting depth `depth`: at depth 0 `writeFlash` gives up, it changes nothing and
reports 0 bytes. -/
def writeFlashNest (alignment : Nat) : Nat → Mem → Nat → Nat → List Nat → Nat × Mem
  | 0 => fun flash _ _ _ => (0, flash)
  | depth + 1 => writeFlashErasing alignment (writeFlashNest alignment depth)

/-! ## The caller's loop -/

/-- Modelled from the spec: the caller's loop over `read_wrapper`, which belongs
to the public range API and is not part of `device.h`.  While `length` is not 0
it calls `read_wrapper(address, length, buffer)`, advances `address` (a
`uint32_t`) and `buffer` by the returned `n` and decreases `length` by `n`.
`fuel` bounds the number of calls.  The result is the number of calls made, the
caller's whole buffer and the state after the loop. -/
def readLoop (alignment : Nat) :
    Nat → Cart → Nat → Nat → List Nat → Option (Nat × List Nat × Cart)
  | 0, c, _, length, buffer => if length = 0 then some (0, buffer, c) else none
  | fuel + 1, c, address, length, buffer =>
    if length = 0 then some (0, buffer, c)
    else do
      let (n, out, c1) ←
        read_wrapper (rawReadBlock alignment) alignment c address length buffer
      let (calls, rest, c2) ←
        readLoop alignment fuel c1 ((address + n) % U32) (length - n) (out.drop n)
      pure (calls + 1, out.take n ++ rest, c2)

/-! ## Rounding -/

theorem and_not_mask (x k : Nat) (hx : x < 2 ^ 32) (hk : k < 32) :
    x &&& ((2 ^ 32 - 1) ^^^ (2 ^ k - 1)) = x - x % 2 ^ k := by
  have hdiv : x - x % 2 ^ k = 2 ^ k * (x / 2 ^ k) := by
    have := Nat.div_add_mod x (2 ^ k)
    omega
  rw [hdiv]
  apply Nat.eq_of_testBit_eq
  intro i
  rw [Nat.testBit_and, Nat.testBit_xor, Nat.testBit_two_pow_sub_one,
    Nat.testBit_two_pow_sub_one, Nat.testBit_mul_pow_two, ← Nat.shiftRight_eq_div_pow,
    Nat.testBit_shiftRight]
  by_cases hik : k ≤ i
  · have h2 : ¬ i < k := by omega
    have h3 : k + (i - k) = i := by omega
    by_cases hi : i < 32
    · simp [hik, h2, hi, h3]
    · have : x.testBit i = false := by
        apply Nat.testBit_lt_two_pow
        exact lt_of_lt_of_le hx (Nat.pow_le_pow_right (by decide) (by omega))
      simp [hik, h2, hi, this, h3]
  · have h2 : i < k := by omega
    have hi : i < 32 := by omega
    simp [hik, h2, hi]

theorem U32_val : U32 = 4294967296 := by decide

theorem IsPow2.pos {a : Nat} (hp : IsPow2 a) : 0 < a := by
  obtain ⟨k, -, rfl⟩ := hp
  exact Nat.pos_pow_of_pos k (by decide)

theorem IsPow2.lt {a : Nat} (hp : IsPow2 a) : a < U32 := by
  obtain ⟨k, hk, rfl⟩ := hp
  exact Nat.pow_lt_pow_right (by decide) hk

/-- For a power-of-two `s` the mask arithmetic of `PAGE_ROUND_DOWN` is rounding
down to a multiple of `s`. -/
theorem round_eq {a x : Nat} (hp : IsPow2 a) (hx : x < U32) :
    PAGE_ROUND_DOWN x a = x - x % a := by
  have hpos := hp.pos
  have hlt := hp.lt
  obtain ⟨k, hk, rfl⟩ := hp
  have hm : (2 ^ k + U32 - 1) % U32 = 2 ^ k - 1 := by
    rw [U32_val] at hlt ⊢
    omega
  unfold PAGE_ROUND_DOWN
  rw [hm]
  exact and_not_mask x k hx hk

theorem offset_eq {a x : Nat} (hx : x < U32) : sub32 x (x - x % a) = x % a := by
  have h := Nat.mod_le x a
  unfold sub32
  rw [U32_val] at hx ⊢
  omega

theorem clamp_eq {a x : Nat} (hp : IsPow2 a) : sub32 a (x % a) = a - x % a := by
  have h := Nat.mod_lt x hp.pos
  have hlt := hp.lt
  unfold sub32
  rw [U32_val] at hlt ⊢
  omega

theorem round_mod {a x : Nat} : (x - x % a) % a = 0 :=
  Nat.mod_eq_zero_of_dvd (Nat.dvd_sub_mod x)

/-! ## Buffers -/

theorem malloc_length (c : Cart) (n : Nat) : (malloc c n).length = n := by
  simp [malloc]

theorem poke_full {dst src : List Nat} (h : src.length = dst.length) :
    poke dst 0 src = some src := by
  simp [poke, h]

theorem poke_zero {dst src : List Nat} (h : src.length ≤ dst.length) :
    poke dst 0 src = some (src ++ dst.drop src.length) := by
  simp [poke, h]

theorem memcpy_out {dst src : List Nat} {o n : Nat} (hs : o + n ≤ src.length)
    (hd : n ≤ dst.length) :
    memcpy dst 0 src o n = some ((src.drop o).take n ++ dst.drop n) := by
  have hl : ((src.drop o).take n).length = n := by
    rw [List.length_take, List.length_drop]; omega
  simp [memcpy, hs, poke, hl, hd]

theorem memcpy_in {dst src : List Nat} {o n : Nat} (hs : n ≤ src.length)
    (hd : o + n ≤ dst.length) :
    memcpy dst o src 0 n = some (dst.take o ++ src.take n ++ dst.drop (o + n)) := by
  have hl : (src.take n).length = n := by
    rw [List.length_take]; omega
  simp [memcpy, hs, poke, hl, hd]

/-! ## Closed forms of the wrappers -/

/-- What `read_wrapper` computes when the raw read stores one block of
`alignment` bytes and the caller's buffer holds the bytes delivered. -/
theorem read_wrapper_eq {a x : Nat} (hp : IsPow2 a) (hx : x < U32)
    (fn : Mem → Nat → List Nat) (c : Cart) (len : Nat) (buffer : List Nat)
    (hB : (fn c.flash (x - x % a)).length = a)
    (hb : min len (a - x % a) ≤ buffer.length) :
    read_wrapper fn a c x len buffer =
      some (min len (a - x % a),
        ((fn c.flash (x - x % a)).drop (x % a)).take (min len (a - x % a))
          ++ buffer.drop (min len (a - x % a)),
        { c with
          log := c.log ++ [Call.rawRead (x - x % a)],
          allocs := if min len (a - x % a) < a ∨ x % a ≠ 0 then c.allocs ++ [a]
            else c.allocs }) := by
  have hm := Nat.mod_lt x hp.pos
  unfold read_wrapper
  simp only [round_eq hp hx, offset_eq hx, clamp_eq hp]
  split_ifs with h
  · have h1 : poke (malloc c a) 0 (fn c.flash (x - x % a)) = some (fn c.flash (x - x % a)) :=
      poke_full (by rw [hB, malloc_length])
    have h2 := @memcpy_out buffer (fn c.flash (x - x % a)) (x % a)
      (min len (a - x % a)) (by rw [hB]; omega) hb
    simp [h1, h2]
  · have h0 : x % a = 0 := by omega
    have hn : min len (a - x % a) = a := by omega
    have hn0 : min len a = a := by rw [h0] at hn; simpa using hn
    rw [hn] at hb
    simp only [h0, Nat.sub_zero] at hB ⊢
    have h1 := @poke_zero buffer (fn c.flash x) (by rw [hB]; exact hb)
    rw [hB] at h1
    simp [h1, hn0, List.take_of_length_le (le_of_eq hB)]

/-- What `write_wrapper` computes when `readFlash` fills the scratch block and
the caller's buffer holds the bytes to be written. -/
theorem write_wrapper_eq {a x : Nat} (hp : IsPow2 a) (hx : x < U32)
    (fn : Mem → Nat → List Nat → Mem) (readFlash : Mem → Nat → Nat → Nat × List Nat)
    (c : Cart) (len : Nat) (data : List Nat)
    (hR : (readFlash c.flash (x - x % a) a).2.length = a)
    (hd : min len (a - x % a) ≤ data.length) :
    write_wrapper fn readFlash a c x len data =
      some (min len (a - x % a),
        if min len (a - x % a) < a ∨ x % a ≠ 0 then
          { c with
            flash := fn c.flash (x - x % a)
              ((readFlash c.flash (x - x % a) a).2.take (x % a)
                ++ data.take (min len (a - x % a))
                ++ (readFlash c.flash (x - x % a) a).2.drop (x % a + min len (a - x % a))),
            log := c.log ++ [Call.readFlash (x - x % a) a,
              Call.rawWrite (x - x % a)
                ((readFlash c.flash (x - x % a) a).2.take (x % a)
                  ++ data.take (min len (a - x % a))
                  ++ (readFlash c.flash (x - x % a) a).2.drop (x % a + min len (a - x % a)))],
            allocs := c.allocs ++ [a] }
        else
          { c with flash := fn c.flash (x - x % a) data,
                   log := c.log ++ [Call.rawWrite (x - x % a) data] }) := by
  have hm := Nat.mod_lt x hp.pos
  unfold write_wrapper
  simp only [round_eq hp hx, offset_eq hx, clamp_eq hp]
  split_ifs with h
  · have h1 : poke (malloc c a) 0 (readFlash c.flash (x - x % a) a).2
        = some (readFlash c.flash (x - x % a) a).2 :=
      poke_full (by rw [hR, malloc_length])
    have h2 := @memcpy_in (readFlash c.flash (x - x % a) a).2 data
      (x % a) (min len (a - x % a)) hd (by rw [hR]; omega)
    simp [h1, h2]
  · rfl

/-- What `erase_wrapper` computes when `readFlash` fills the preservation
buffer. -/
theorem erase_wrapper_eq {a x : Nat} (hp : IsPow2 a) (hx : x < U32)
    (fn : Mem → Nat → Mem) (readFlash : Mem → Nat → Nat → Nat × List Nat)
    (writeFlash : Mem → Nat → Nat → List Nat → Nat × Mem) (c : Cart)
    (hR : (readFlash c.flash (x - x % a) (x % a)).2.length = x % a) :
    erase_wrapper fn readFlash writeFlash a c x =
      some (a - x % a,
        if x % a ≠ 0 then
          { c with
            flash := (writeFlash (fn c.flash (x - x % a)) (x - x % a) (x % a)
              (readFlash c.flash (x - x % a) (x % a)).2).2,
            log := c.log ++ [Call.readFlash (x - x % a) (x % a), Call.rawErase (x - x % a),
              Call.writeFlash (x - x % a) (x % a) (readFlash c.flash (x - x % a) (x % a)).2],
            allocs := c.allocs ++ [x % a] }
        else
          { c with flash := fn c.flash (x - x % a),
                   log := c.log ++ [Call.rawErase (x - x % a)] }) := by
  unfold erase_wrapper
  simp only [round_eq hp hx, offset_eq hx, clamp_eq hp]
  split_ifs with h
  · have h1 : poke (malloc c (x % a)) 0 (readFlash c.flash (x - x % a) (x % a)).2
        = some (readFlash c.flash (x - x % a) (x % a)).2 :=
      poke_full (by rw [hR, malloc_length])
    simp [h1]
  · simp

/-! ## The wrappers on the modelled device -/

theorem rawReadBlock_length (a : Nat) (m : Mem) (r : Nat) :
    (rawReadBlock a m r).length = a := by
  simp [rawReadBlock]

theorem readFlashAll_length (m : Mem) (r k : Nat) : (readFlashAll m r k).2.length = k := by
  simp [readFlashAll]

theorem block_getD (m : Mem) (r k j : Nat) (hj : j < k) :
    ((List.range k).map (fun i => m (r + i))).getD j 0 = m (r + j) := by
  rw [List.getD_eq_getElem?_getD]
  simp [List.getElem?_range hj]

/-- The bytes of a block of device content after a slice of it was overlaid
with the caller's data. -/
theorem merge_getD (m : Mem) (r a o n j : Nat) (data : List Nat)
    (hon : o + n ≤ a) (hn : n ≤ data.length) (hj : j < a) :
    (((List.range a).map (fun i => m (r + i))).take o ++ data.take n
      ++ ((List.range a).map (fun i => m (r + i))).drop (o + n)).getD j 0
      = if o ≤ j ∧ j < o + n then data.getD (j - o) 0 else m (r + j) := by
  rw [List.getD_eq_getElem?_getD]
  have hl1 : (((List.range a).map (fun i => m (r + i))).take o).length = o := by
    simp; omega
  have hl2 : (data.take n).length = n := by simp; omega
  by_cases h1 : j < o
  · rw [List.append_assoc, List.getElem?_append_left (by omega)]
    have : ¬ (o ≤ j ∧ j < o + n) := by omega
    simp [this, List.getElem?_take, h1, hj]
  · by_cases h2 : j < o + n
    · rw [List.getElem?_append_left (by simp; omega), List.getElem?_append_right (by omega)]
      have : (o ≤ j ∧ j < o + n) := by omega
      simp [this, hl1, List.getElem?_take]
      rw [if_pos (by omega)]
    · rw [List.getElem?_append_right (by simp; omega)]
      have : ¬ (o ≤ j ∧ j < o + n) := by omega
      have e1 : min o a = o := by omega
      have e2 : min n data.length = n := by omega
      have e3 : o + n + (j - (o + n)) = j := by omega
      simp [this, e1, e2, e3, List.getElem?_range hj]

/-- The slice of a raw block that `read_wrapper` copies out is the device
content at the requested addresses. -/
theorem rawReadBlock_slice (a : Nat) (m : Mem) (r o n : Nat) (hon : o + n ≤ a) :
    ((rawReadBlock a m r).drop o).take n = (List.range n).map (fun i => m (r + o + i)) := by
  apply List.ext_getElem?
  intro i
  by_cases hi : i < n
  · have h1 : o + i < a := by omega
    simp [rawReadBlock, List.getElem?_take, hi, List.getElem?_range, h1, Nat.add_assoc]
  · have h2 : (List.range n)[i]? = none := by
      rw [List.getElem?_eq_none_iff]; simp; omega
    simp [rawReadBlock, List.getElem?_take, hi, h2]

/-- Device content after `write_wrapper` on the modelled device: the bytes
delivered sit at the requested addresses, every other byte is as before. -/
theorem write_flash {a x : Nat} (hp : IsPow2 a) (hx : x < U32) (c : Cart) (len : Nat)
    (data : List Nat) (hd : min len (a - x % a) ≤ data.length) :
    ∃ c1, write_wrapper (rawWriteBlock a) readFlashAll a c x len data
        = some (min len (a - x % a), c1)
      ∧ ∀ y, c1.flash y =
          if x ≤ y ∧ y < x + min len (a - x % a) then data.getD (y - x) 0 else c.flash y := by
  have hm := Nat.mod_lt x hp.pos
  have hle := Nat.mod_le x a
  rw [write_wrapper_eq hp hx _ _ c len data (readFlashAll_length _ _ _) hd]
  refine ⟨_, rfl, ?_⟩
  intro y
  split_ifs with h h2 h2
  · show rawWriteBlock a c.flash (x - x % a) _ y = _
    unfold rawWriteBlock readFlashAll
    have : x - x % a ≤ y ∧ y < x - x % a + a := by omega
    rw [if_pos this, merge_getD _ _ _ _ _ _ _ (by omega) hd (by omega),
      if_pos (by omega)]
    congr 1
    omega
  · show rawWriteBlock a c.flash (x - x % a) _ y = _
    unfold rawWriteBlock readFlashAll
    by_cases hy : x - x % a ≤ y ∧ y < x - x % a + a
    · rw [if_pos hy, merge_getD _ _ _ _ _ _ _ (by omega) hd (by omega), if_neg (by omega)]
      congr 1
      omega
    · rw [if_neg hy]
  · show rawWriteBlock a c.flash (x - x % a) data y = _
    unfold rawWriteBlock
    have h0 : x % a = 0 := by omega
    rw [if_pos (by omega)]
    congr 1
    omega
  · show rawWriteBlock a c.flash (x - x % a) data y = _
    unfold rawWriteBlock
    have h0 : x % a = 0 := by omega
    rw [if_neg (by omega)]

/-- Device content after `erase_wrapper` on the modelled device. -/
theorem erase_flash {a x : Nat} (hp : IsPow2 a) (hx : x < U32) (c : Cart) :
    ∃ c1, erase_wrapper (rawEraseBlock a) readFlashAll writeFlashAll a c x
        = some (a - x % a, c1)
      ∧ ∀ y, c1.flash y =
          if x ≤ y ∧ y < x - x % a + a then 0xFF else c.flash y := by
  have hm := Nat.mod_lt x hp.pos
  have hle := Nat.mod_le x a
  rw [erase_wrapper_eq hp hx _ _ _ c (readFlashAll_length _ _ _)]
  refine ⟨_, rfl, ?_⟩
  intro y
  by_cases h : x % a ≠ 0
  · rw [if_pos h]
    show (writeFlashAll (rawEraseBlock a c.flash (x - x % a)) (x - x % a) (x % a)
      (readFlashAll c.flash (x - x % a) (x % a)).2).2 y = _
    unfold writeFlashAll readFlashAll rawEraseBlock
    by_cases hy : x - x % a ≤ y ∧ y < x - x % a + x % a
    · simp only []
      rw [if_pos hy, block_getD _ _ _ _ (by omega), if_neg (by omega)]
      congr 1
      omega
    · simp only []
      rw [if_neg hy]
      by_cases hy2 : x ≤ y ∧ y < x - x % a + a
      · rw [if_pos hy2, if_pos (by omega)]
      · rw [if_neg hy2, if_neg (by omega)]
  · rw [if_neg h]
    show rawEraseBlock a c.flash (x - x % a) y = _
    unfold rawEraseBlock
    have h0 : x % a = 0 := by omega
    by_cases hy2 : x ≤ y ∧ y < x - x % a + a
    · rw [if_pos hy2, if_pos (by omega)]
    · rw [if_neg hy2, if_neg (by omega)]

/-- What `read_wrapper` delivers on the modelled device: the device content at
the requested addresses, in front of the untouched rest of the buffer. -/
theorem read_flash {a x : Nat} (hp : IsPow2 a) (hx : x < U32) (c : Cart) (len : Nat)
    (buffer : List Nat) (hb : min len (a - x % a) ≤ buffer.length) :
    ∃ c1, read_wrapper (rawReadBlock a) a c x len buffer
        = some (min len (a - x % a),
            (List.range (min len (a - x % a))).map (fun i => c.flash (x + i))
              ++ buffer.drop (min len (a - x % a)), c1)
      ∧ c1.flash = c.flash := by
  have hm := Nat.mod_lt x hp.pos
  have hle := Nat.mod_le x a
  rw [read_wrapper_eq hp hx _ c len buffer (rawReadBlock_length _ _ _) hb,
    rawReadBlock_slice _ _ _ _ _ (by omega)]
  have e : x - x % a + x % a = x := by omega
  rw [e]
  exact ⟨_, rfl, rfl⟩

theorem range_map_eq_take (f : Nat → Nat) (data : List Nat) (n : Nat) (hn : n ≤ data.length)
    (hf : ∀ i, i < n → f i = data.getD i 0) :
    (List.range n).map f = data.take n := by
  apply List.ext_getElem?
  intro i
  by_cases hi : i < n
  · have h1 : i < data.length := by omega
    have h2 := hf i hi
    rw [List.getD_eq_getElem?_getD, List.getElem?_eq_getElem h1] at h2
    simp [List.getElem?_take, hi, List.getElem?_range, h2, List.getElem?_eq_getElem h1]
  · have h2 : (List.range n)[i]? = none := by
      rw [List.getElem?_eq_none_iff]; simp; omega
    simp [List.getElem?_take, hi, h2]

/-! ## The claims -/

/-- C1. Read-after-write for one sub-block request: on the modelled device,
for every power-of-two alignment, device content, 32-bit address, length and
data buffer of at least `length` bytes, `write_wrapper` returns
`n = min(length, alignment - address mod alignment)`, and
`read_wrapper(address, n, out)` run right after it with the same alignment
returns `n` and leaves `out[0..n)` equal to `data[0..n)`. -/
theorem C1_read_after_write (alignment : Nat) (hp : IsPow2 alignment) (c : Cart)
    (address length : Nat) (ha : address < U32) (data : List Nat)
    (hd : length ≤ data.length) :
    ∃ n c1, write_wrapper (rawWriteBlock alignment) readFlashAll alignment c address length data
        = some (n, c1)
      ∧ n = min length (alignment - address % alignment)
      ∧ ∀ out : List Nat, n ≤ out.length →
        ∃ out2 c2, read_wrapper (rawReadBlock alignment) alignment c1 address n out
            = some (n, out2, c2)
          ∧ out2.take n = data.take n := by
  have hm := Nat.mod_lt address hp.pos
  have hnd : min length (alignment - address % alignment) ≤ data.length := by omega
  obtain ⟨c1, hw, hf⟩ := write_flash hp ha c length data hnd
  refine ⟨_, c1, hw, rfl, ?_⟩
  intro out ho
  have hnn : min (min length (alignment - address % alignment)) (alignment - address % alignment)
      = min length (alignment - address % alignment) := by omega
  obtain ⟨c2, hr, -⟩ := read_flash hp ha c1 (min length (alignment - address % alignment)) out
    (by rw [hnn]; exact ho)
  rw [hnn] at hr
  refine ⟨_, c2, hr, ?_⟩
  rw [List.take_left' (by simp)]
  apply range_map_eq_take _ _ _ hnd
  intro i hi
  rw [hf, if_pos (by omega)]
  congr 1
  omega

/-- Instance of C1: alignment 16, one byte written at address 3 and read back. -/
theorem C1_read_after_write_witness :
    ∃ n c1, write_wrapper (rawWriteBlock 16) readFlashAll 16 rampCart 3 1 [7] = some (n, c1)
      ∧ n = min 1 (16 - 3 % 16)
      ∧ ∀ out : List Nat, n ≤ out.length →
        ∃ out2 c2, read_wrapper (rawReadBlock 16) 16 c1 3 n out = some (n, out2, c2)
          ∧ out2.take n = [7].take n :=
  C1_read_after_write 16 ⟨4, by decide, by decide⟩ rampCart 3 1 (by decide) [7] (by decide)

/-- C2. No collateral modification by a write: on the modelled device, for
every power-of-two alignment, device content, 32-bit address, length and data,
`write_wrapper` returns some `n` and every device byte outside
`[address, address + n)` has the value it had before the call. -/
theorem C2_write_frame (alignment : Nat) (hp : IsPow2 alignment) (c : Cart)
    (address length : Nat) (ha : address < U32) (data : List Nat)
    (hd : length ≤ data.length) :
    ∃ n c1, write_wrapper (rawWriteBlock alignment) readFlashAll alignment c address length data
        = some (n, c1)
      ∧ ∀ y, ¬ (address ≤ y ∧ y < address + n) → c1.flash y = c.flash y := by
  have hnd : min length (alignment - address % alignment) ≤ data.length := by omega
  obtain ⟨c1, hw, hf⟩ := write_flash hp ha c length data hnd
  refine ⟨_, c1, hw, ?_⟩
  intro y hy
  rw [hf, if_neg hy]

/-- Instance of C2: alignment 16, one byte written at offset 3 of a block. -/
theorem C2_write_frame_witness :
    ∃ n c1, write_wrapper (rawWriteBlock 16) readFlashAll 16 rampCart 3 1 [7] = some (n, c1)
      ∧ ∀ y, ¬ (3 ≤ y ∧ y < 3 + n) → c1.flash y = rampCart.flash y :=
  C2_write_frame 16 ⟨4, by decide, by decide⟩ rampCart 3 1 (by decide) [7] (by decide)

/-- C3. Erase with preservation: on the modelled device, for every power-of-two
alignment, device content and 32-bit address `A` whose aligned block starts at
`R`, `erase_wrapper(A)` returns, the device bytes in `[R, A)` keep their values
and the device bytes in `[A, R + alignment)` are `0xFF`.  With `A > R` the
first range is not empty; with `A = R` it is empty and the statement holds as
well. -/
theorem C3_erase_preserves (alignment : Nat) (hp : IsPow2 alignment) (c : Cart)
    (A : Nat) (hA : A < U32) :
    ∃ r c1, erase_wrapper (rawEraseBlock alignment) readFlashAll writeFlashAll alignment c A
        = some (r, c1)
      ∧ (∀ y, PAGE_ROUND_DOWN A alignment ≤ y → y < A → c1.flash y = c.flash y)
      ∧ (∀ y, A ≤ y → y < PAGE_ROUND_DOWN A alignment + alignment → c1.flash y = 0xFF) := by
  have hle := Nat.mod_le A alignment
  rw [round_eq hp hA]
  obtain ⟨c1, he, hf⟩ := erase_flash hp hA c
  refine ⟨_, c1, he, ?_, ?_⟩
  · intro y h1 h2
    rw [hf, if_neg (by omega)]
  · intro y h1 h2
    rw [hf, if_pos ⟨h1, h2⟩]

/-- Instance of C3: alignment 16, erase at address 19 of the block at 16. -/
theorem C3_erase_preserves_witness :
    PAGE_ROUND_DOWN 19 16 < 19 ∧
    ∃ r c1, erase_wrapper (rawEraseBlock 16) readFlashAll writeFlashAll 16 rampCart 19
        = some (r, c1)
      ∧ (∀ y, PAGE_ROUND_DOWN 19 16 ≤ y → y < 19 → c1.flash y = rampCart.flash y)
      ∧ (∀ y, 19 ≤ y → y < PAGE_ROUND_DOWN 19 16 + 16 → c1.flash y = 0xFF) :=
  ⟨by decide, C3_erase_preserves 16 ⟨4, by decide, by decide⟩ rampCart 19 (by decide)⟩

/-- C4. `read_wrapper` delivers exactly the requested slice of the block: for
every power-of-two alignment, 32-bit address, length and caller buffer of at
least `length` bytes, with `B` the `alignment`-byte block the raw read produces
for `round_addr` and `n = min(length, alignment - offset)` the returned value,
`buffer[i] = B[offset + i]` for every `i < n` after the call; on the scratch
path (`n < alignment` or `offset != 0`) every buffer position at index `n` or
above keeps its value. -/
theorem C4_read_slice (alignment : Nat) (hp : IsPow2 alignment) (fn : Mem → Nat → List Nat)
    (c : Cart) (address length : Nat) (ha : address < U32) (buffer : List Nat)
    (hB : (fn c.flash (PAGE_ROUND_DOWN address alignment)).length = alignment)
    (hb : length ≤ buffer.length) :
    ∃ n out c1, read_wrapper fn alignment c address length buffer = some (n, out, c1)
      ∧ n = min length (alignment - sub32 address (PAGE_ROUND_DOWN address alignment))
      ∧ (∀ i, i < n → ∃ v, out[i]? = some v
          ∧ (fn c.flash (PAGE_ROUND_DOWN address alignment))[
              sub32 address (PAGE_ROUND_DOWN address alignment) + i]? = some v)
      ∧ (n < alignment ∨ sub32 address (PAGE_ROUND_DOWN address alignment) ≠ 0 →
          ∀ i, n ≤ i → out[i]? = buffer[i]?)
      ∧ out.length = buffer.length := by
  have hm := Nat.mod_lt address hp.pos
  rw [round_eq hp ha] at hB ⊢
  rw [offset_eq ha]
  have hnb : min length (alignment - address % alignment) ≤ buffer.length := by omega
  have hl : (((fn c.flash (address - address % alignment)).drop (address % alignment)).take
      (min length (alignment - address % alignment))).length
        = min length (alignment - address % alignment) := by
    rw [List.length_take, List.length_drop, hB]; omega
  refine ⟨_, _, _, read_wrapper_eq hp ha fn c length buffer hB hnb, rfl, ?_, ?_, ?_⟩
  · intro i hi
    have hi2 : address % alignment + i < (fn c.flash (address - address % alignment)).length := by
      rw [hB]; omega
    refine ⟨(fn c.flash (address - address % alignment))[address % alignment + i], ?_,
      List.getElem?_eq_getElem hi2⟩
    rw [List.getElem?_append_left (by rw [hl]; exact hi), List.getElem?_take, if_pos hi,
      List.getElem?_drop, List.getElem?_eq_getElem hi2]
  · intro _ i hi
    rw [List.getElem?_append_right (by rw [hl]; exact hi), hl, List.getElem?_drop]
    congr 1
    omega
  · rw [List.length_append, hl, List.length_drop]
    omega

/-- Instance of C4: alignment 16, two bytes read from address 21 of the ramp
device into a four-byte buffer. -/
theorem C4_read_slice_witness :
    ∃ n out c1, read_wrapper (rawReadBlock 16) 16 rampCart 21 2 [1, 2, 3, 4]
        = some (n, out, c1)
      ∧ n = min 2 (16 - sub32 21 (PAGE_ROUND_DOWN 21 16))
      ∧ (∀ i, i < n → ∃ v, out[i]? = some v
          ∧ (rawReadBlock 16 rampCart.flash (PAGE_ROUND_DOWN 21 16))[
              sub32 21 (PAGE_ROUND_DOWN 21 16) + i]? = some v)
      ∧ (n < 16 ∨ sub32 21 (PAGE_ROUND_DOWN 21 16) ≠ 0 →
          ∀ i, n ≤ i → out[i]? = [1, 2, 3, 4][i]?)
      ∧ out.length = [1, 2, 3, 4].length :=
  C4_read_slice 16 ⟨4, by decide, by decide⟩ (rawReadBlock 16) rampCart 21 2 (by decide)
    [1, 2, 3, 4] (by simp [rawReadBlock]) (by decide)

/-- C5. `read_wrapper` and `write_wrapper` both return `clamped_length`: for every
power-of-two alignment, 32-bit address and length, whatever the device content,
the raw functions and the buffer content are, the returned value is
`min(length, alignment - offset)` with `offset = address - round_addr` in
`uint32_t` arithmetic, which is `min(length, alignment - address mod alignment)`. -/
theorem C5_returns_clamped_length (alignment : Nat) (hp : IsPow2 alignment)
    (fnR : Mem → Nat → List Nat) (fnW : Mem → Nat → List Nat → Mem)
    (readFlash : Mem → Nat → Nat → Nat × List Nat)
    (c : Cart) (address length : Nat) (ha : address < U32) (buffer : List Nat)
    (hfn : ∀ m r, (fnR m r).length = alignment)
    (hrf : ∀ m r k, (readFlash m r k).2.length = k)
    (hb : length ≤ buffer.length) :
    ∃ out c1 c2,
      read_wrapper fnR alignment c address length buffer
        = some (min length (sub32 alignment (sub32 address (PAGE_ROUND_DOWN address alignment))),
            out, c1)
      ∧ write_wrapper fnW readFlash alignment c address length buffer
        = some (min length (sub32 alignment (sub32 address (PAGE_ROUND_DOWN address alignment))),
            c2)
      ∧ min length (sub32 alignment (sub32 address (PAGE_ROUND_DOWN address alignment)))
        = min length (alignment - address % alignment) := by
  have hm := Nat.mod_lt address hp.pos
  have hnb : min length (alignment - address % alignment) ≤ buffer.length := by omega
  rw [round_eq hp ha, offset_eq ha, clamp_eq hp]
  exact ⟨_, _, _, read_wrapper_eq hp ha fnR c length buffer (hfn _ _) hnb,
    write_wrapper_eq hp ha fnW readFlash c length buffer (hrf _ _ _) hnb, rfl⟩

/-- Instance of C5: alignment 16, a request of 40 bytes at address 21 is
clamped to the 11 bytes left in the block. -/
theorem C5_returns_clamped_length_witness :
    ∃ out c1 c2,
      read_wrapper (rawReadBlock 16) 16 rampCart 21 40 (List.replicate 40 0)
        = some (min 40 (sub32 16 (sub32 21 (PAGE_ROUND_DOWN 21 16))), out, c1)
      ∧ write_wrapper (rawWriteBlock 16) readFlashAll 16 rampCart 21 40 (List.replicate 40 0)
        = some (min 40 (sub32 16 (sub32 21 (PAGE_ROUND_DOWN 21 16))), c2)
      ∧ min 40 (sub32 16 (sub32 21 (PAGE_ROUND_DOWN 21 16))) = min 40 (16 - 21 % 16) :=
  C5_returns_clamped_length 16 ⟨4, by decide, by decide⟩ (rawReadBlock 16) (rawWriteBlock 16)
    readFlashAll rampCart 21 40 (by decide) (List.replicate 40 0)
    (fun m r => rawReadBlock_length 16 m r) (fun m r k => readFlashAll_length m r k)
    (by simp)

/-- C6. `erase_wrapper` returns `alignment - offset`: for every power-of-two
alignment and 32-bit address, whatever the device and the raw functions are,
the returned value `r` is `alignment - (address - round_addr)`, satisfies
`1 <= r <= alignment`, and `address + r = round_addr + alignment` as natural
numbers. -/
theorem C6_erase_returns (alignment : Nat) (hp : IsPow2 alignment)
    (fn : Mem → Nat → Mem) (readFlash : Mem → Nat → Nat → Nat × List Nat)
    (writeFlash : Mem → Nat → Nat → List Nat → Nat × Mem)
    (c : Cart) (address : Nat) (ha : address < U32)
    (hrf : ∀ m r k, (readFlash m r k).2.length = k) :
    ∃ r c1, erase_wrapper fn readFlash writeFlash alignment c address = some (r, c1)
      ∧ r = sub32 alignment (sub32 address (PAGE_ROUND_DOWN address alignment))
      ∧ r = alignment - (address - PAGE_ROUND_DOWN address alignment)
      ∧ 1 ≤ r ∧ r ≤ alignment
      ∧ address + r = PAGE_ROUND_DOWN address alignment + alignment := by
  have hm := Nat.mod_lt address hp.pos
  have hle := Nat.mod_le address alignment
  rw [round_eq hp ha, offset_eq ha, clamp_eq hp]
  refine ⟨_, _, erase_wrapper_eq hp ha fn readFlash writeFlash c (hrf _ _ _), rfl, ?_, ?_, ?_, ?_⟩
    <;> omega

/-- Instance of C6: alignment 16, erase at address 19. -/
theorem C6_erase_returns_witness :
    ∃ r c1, erase_wrapper (rawEraseBlock 16) readFlashAll writeFlashAll 16 rampCart 19
        = some (r, c1)
      ∧ r = sub32 16 (sub32 19 (PAGE_ROUND_DOWN 19 16))
      ∧ r = 16 - (19 - PAGE_ROUND_DOWN 19 16)
      ∧ 1 ≤ r ∧ r ≤ 16
      ∧ 19 + r = PAGE_ROUND_DOWN 19 16 + 16 :=
  C6_erase_returns 16 ⟨4, by decide, by decide⟩ (rawEraseBlock 16) readFlashAll writeFlashAll
    rampCart 19 (by decide) (fun m r k => readFlashAll_length m r k)

theorem round_greatest {a x m : Nat} (ha : 0 < a) (hd : a ∣ m) (hm : m ≤ x) :
    m ≤ x - x % a := by
  obtain ⟨q, rfl⟩ := hd
  have h1 : q ≤ x / a := (Nat.le_div_iff_mul_le ha).2 (by rw [Nat.mul_comm]; exact hm)
  have h2 : a * (x / a) = x - x % a := by
    have := Nat.div_add_mod x a
    omega
  calc a * q ≤ a * (x / a) := Nat.mul_le_mul_left a h1
    _ = x - x % a := h2

/-- C7. Every raw call is block-aligned: for every power-of-two alignment
(`1 <= alignment <= 2^31`) and 32-bit address, each of `read_wrapper`,
`erase_wrapper` and `write_wrapper` makes its raw call, and no other raw call,
at `PAGE_ROUND_DOWN(address, alignment) = address - (address mod alignment)`;
this address is a multiple of `alignment`, it is the greatest such multiple not
exceeding `address`, and `offset = address - round_addr` is below `alignment`. -/
theorem C7_raw_calls_aligned (alignment : Nat) (hp : IsPow2 alignment)
    (fnR : Mem → Nat → List Nat) (fnE : Mem → Nat → Mem) (fnW : Mem → Nat → List Nat → Mem)
    (readFlash : Mem → Nat → Nat → Nat × List Nat)
    (writeFlash : Mem → Nat → Nat → List Nat → Nat × Mem)
    (c : Cart) (address length : Nat) (ha : address < U32) (buffer : List Nat)
    (hfn : ∀ m r, (fnR m r).length = alignment)
    (hrf : ∀ m r k, (readFlash m r k).2.length = k)
    (hb : length ≤ buffer.length) :
    (∃ n out c1, read_wrapper fnR alignment c address length buffer = some (n, out, c1)
        ∧ c1.log.filterMap Call.rawAddress
          = c.log.filterMap Call.rawAddress ++ [PAGE_ROUND_DOWN address alignment])
      ∧ (∃ r c1, erase_wrapper fnE readFlash writeFlash alignment c address = some (r, c1)
        ∧ c1.log.filterMap Call.rawAddress
          = c.log.filterMap Call.rawAddress ++ [PAGE_ROUND_DOWN address alignment])
      ∧ (∃ n c1, write_wrapper fnW readFlash alignment c address length buffer = some (n, c1)
        ∧ c1.log.filterMap Call.rawAddress
          = c.log.filterMap Call.rawAddress ++ [PAGE_ROUND_DOWN address alignment])
      ∧ PAGE_ROUND_DOWN address alignment = address - address % alignment
      ∧ alignment ∣ PAGE_ROUND_DOWN address alignment
      ∧ PAGE_ROUND_DOWN address alignment ≤ address
      ∧ (∀ m, alignment ∣ m → m ≤ address → m ≤ PAGE_ROUND_DOWN address alignment)
      ∧ sub32 address (PAGE_ROUND_DOWN address alignment)
          = address - PAGE_ROUND_DOWN address alignment
      ∧ sub32 address (PAGE_ROUND_DOWN address alignment) < alignment := by
  have hm := Nat.mod_lt address hp.pos
  have hle := Nat.mod_le address alignment
  have hnb : min length (alignment - address % alignment) ≤ buffer.length := by omega
  rw [round_eq hp ha, offset_eq ha]
  refine ⟨⟨_, _, _, read_wrapper_eq hp ha fnR c length buffer (hfn _ _) hnb, ?_⟩,
    ⟨_, _, erase_wrapper_eq hp ha fnE readFlash writeFlash c (hrf _ _ _), ?_⟩,
    ⟨_, _, write_wrapper_eq hp ha fnW readFlash c length buffer (hrf _ _ _) hnb, ?_⟩,
    rfl, Nat.dvd_sub_mod address, Nat.sub_le _ _,
    fun m hd hma => round_greatest hp.pos hd hma, by omega, hm⟩
  · simp [List.filterMap_append, Call.rawAddress]
  · split_ifs <;> simp [List.filterMap_append, Call.rawAddress]
  · split_ifs <;> simp [List.filterMap_append, Call.rawAddress]

/-- Instance of C7: alignment 16, address 21, length 2. -/
theorem C7_raw_calls_aligned_witness :
    (∃ n out c1, read_wrapper (rawReadBlock 16) 16 rampCart 21 2 [1, 2] = some (n, out, c1)
        ∧ c1.log.filterMap Call.rawAddress
          = rampCart.log.filterMap Call.rawAddress ++ [PAGE_ROUND_DOWN 21 16])
      ∧ (∃ r c1, erase_wrapper (rawEraseBlock 16) readFlashAll writeFlashAll 16 rampCart 21
          = some (r, c1)
        ∧ c1.log.filterMap Call.rawAddress
          = rampCart.log.filterMap Call.rawAddress ++ [PAGE_ROUND_DOWN 21 16])
      ∧ (∃ n c1, write_wrapper (rawWriteBlock 16) readFlashAll 16 rampCart 21 2 [1, 2]
          = some (n, c1)
        ∧ c1.log.filterMap Call.rawAddress
          = rampCart.log.filterMap Call.rawAddress ++ [PAGE_ROUND_DOWN 21 16])
      ∧ PAGE_ROUND_DOWN 21 16 = 21 - 21 % 16
      ∧ 16 ∣ PAGE_ROUND_DOWN 21 16
      ∧ PAGE_ROUND_DOWN 21 16 ≤ 21
      ∧ (∀ m, 16 ∣ m → m ≤ 21 → m ≤ PAGE_ROUND_DOWN 21 16)
      ∧ sub32 21 (PAGE_ROUND_DOWN 21 16) = 21 - PAGE_ROUND_DOWN 21 16
      ∧ sub32 21 (PAGE_ROUND_DOWN 21 16) < 16 :=
  C7_raw_calls_aligned 16 ⟨4, by decide, by decide⟩ (rawReadBlock 16) (rawEraseBlock 16)
    (rawWriteBlock 16) readFlashAll writeFlashAll rampCart 21 2 (by decide) [1, 2]
    (fun m r => rawReadBlock_length 16 m r) (fun m r k => readFlashAll_length m r k)
    (by decide)

/-- C8. A single adapter call never crosses an aligned-block boundary: for
every power-of-two alignment, 32-bit address and length, with `n` the value
`read_wrapper` and `write_wrapper` return, `offset + n <= alignment` as natural
numbers, so `[address, address + n)` lies inside
`[round_addr, round_addr + alignment)`, and both slice copies between the
caller's buffer and an `alignment`-byte scratch buffer stay within bounds. -/
theorem C8_single_block (alignment : Nat) (hp : IsPow2 alignment)
    (fnR : Mem → Nat → List Nat) (fnW : Mem → Nat → List Nat → Mem)
    (readFlash : Mem → Nat → Nat → Nat × List Nat)
    (c : Cart) (address length : Nat) (ha : address < U32) (buffer : List Nat)
    (hfn : ∀ m r, (fnR m r).length = alignment)
    (hrf : ∀ m r k, (readFlash m r k).2.length = k)
    (hb : length ≤ buffer.length) :
    ∃ n out c1 c2,
      read_wrapper fnR alignment c address length buffer = some (n, out, c1)
      ∧ write_wrapper fnW readFlash alignment c address length buffer = some (n, c2)
      ∧ sub32 address (PAGE_ROUND_DOWN address alignment) + n ≤ alignment
      ∧ PAGE_ROUND_DOWN address alignment ≤ address
      ∧ address + n ≤ PAGE_ROUND_DOWN address alignment + alignment
      ∧ ∀ scratch dst : List Nat, scratch.length = alignment → n ≤ dst.length →
          (memcpy dst 0 scratch (sub32 address (PAGE_ROUND_DOWN address alignment)) n).isSome
          ∧ (memcpy scratch (sub32 address (PAGE_ROUND_DOWN address alignment)) dst 0 n).isSome := by
  have hm := Nat.mod_lt address hp.pos
  have hle := Nat.mod_le address alignment
  have hnb : min length (alignment - address % alignment) ≤ buffer.length := by omega
  rw [round_eq hp ha, offset_eq ha]
  refine ⟨_, _, _, _, read_wrapper_eq hp ha fnR c length buffer (hfn _ _) hnb,
    write_wrapper_eq hp ha fnW readFlash c length buffer (hrf _ _ _) hnb,
    by omega, by omega, by omega, ?_⟩
  intro scratch dst hs hdst
  constructor
  · rw [memcpy_out (by rw [hs]; omega) hdst]; rfl
  · rw [memcpy_in hdst (by rw [hs]; omega)]; rfl

/-- Instance of C8: alignment 16, a request of 40 bytes at address 21. -/
theorem C8_single_block_witness :
    ∃ n out c1 c2,
      read_wrapper (rawReadBlock 16) 16 rampCart 21 40 (List.replicate 40 0)
        = some (n, out, c1)
      ∧ write_wrapper (rawWriteBlock 16) readFlashAll 16 rampCart 21 40 (List.replicate 40 0)
        = some (n, c2)
      ∧ sub32 21 (PAGE_ROUND_DOWN 21 16) + n ≤ 16
      ∧ PAGE_ROUND_DOWN 21 16 ≤ 21
      ∧ 21 + n ≤ PAGE_ROUND_DOWN 21 16 + 16
      ∧ ∀ scratch dst : List Nat, scratch.length = 16 → n ≤ dst.length →
          (memcpy dst 0 scratch (sub32 21 (PAGE_ROUND_DOWN 21 16)) n).isSome
          ∧ (memcpy scratch (sub32 21 (PAGE_ROUND_DOWN 21 16)) dst 0 n).isSome :=
  C8_single_block 16 ⟨4, by decide, by decide⟩ (rawReadBlock 16) (rawWriteBlock 16)
    readFlashAll rampCart 21 40 (by decide) (List.replicate 40 0)
    (fun m r => rawReadBlock_length 16 m r) (fun m r k => readFlashAll_length m r k)
    (by simp)

theorem isPow2_256 : IsPow2 256 := ⟨8, by decide, by decide⟩

/-- C9. Concrete scenario, erase part: with alignment 256 for read, write and
erase and erased-state value `0xFF`, for every initial device content,
`write(260, 4, [0xAA,0xBB,0xCC,0xDD])` followed by `erase(256)` and
`read(256, 256, buf)` makes the read return 256 with every one of
`buf[0..256)` equal to `0xFF`. -/
theorem C9_scenario_erase (c : Cart) (buf : List Nat) (hbuf : 256 ≤ buf.length) :
    ∃ c1 r c2 out c3,
      write_wrapper (rawWriteBlock 256) readFlashAll 256 c 260 4 [0xAA, 0xBB, 0xCC, 0xDD]
        = some (4, c1)
      ∧ erase_wrapper (rawEraseBlock 256) readFlashAll writeFlashAll 256 c1 256 = some (r, c2)
      ∧ read_wrapper (rawReadBlock 256) 256 c2 256 256 buf = some (256, out, c3)
      ∧ ∀ i, i < 256 → out[i]? = some 0xFF := by
  have e1 : min 4 (256 - 260 % 256) = 4 := by decide
  have e2 : min 256 (256 - 256 % 256) = 256 := by decide
  obtain ⟨c1, hw, -⟩ := write_flash isPow2_256 (x := 260) (by decide) c 4
    [0xAA, 0xBB, 0xCC, 0xDD] (by decide)
  obtain ⟨c2, he, hf2⟩ := erase_flash isPow2_256 (x := 256) (by decide) c1
  obtain ⟨c3, hr, -⟩ := read_flash isPow2_256 (x := 256) (by decide) c2 256 buf
    (by rw [e2]; exact hbuf)
  rw [e1] at hw
  rw [e2] at hr
  refine ⟨c1, _, c2, _, c3, hw, he, hr, ?_⟩
  intro i hi
  rw [List.getElem?_append_left (by simp; exact hi), List.getElem?_map,
    List.getElem?_range hi, Option.map_some', hf2, if_pos (by omega)]

/-- Instance of C9 on the ramp device, with a read buffer of 256 zero bytes. -/
theorem C9_scenario_erase_witness :
    ∃ c1 r c2 out c3,
      write_wrapper (rawWriteBlock 256) readFlashAll 256 rampCart 260 4 [0xAA, 0xBB, 0xCC, 0xDD]
        = some (4, c1)
      ∧ erase_wrapper (rawEraseBlock 256) readFlashAll writeFlashAll 256 c1 256 = some (r, c2)
      ∧ read_wrapper (rawReadBlock 256) 256 c2 256 256 (List.replicate 256 0)
        = some (256, out, c3)
      ∧ ∀ i, i < 256 → out[i]? = some 0xFF :=
  C9_scenario_erase rampCart (List.replicate 256 0)
    (le_of_eq (List.length_replicate 256 0).symm)

/-- C10, as stated, fails: on the erased device, right after
`write(260, 4, [0xAA,0xBB,0xCC,0xDD])` the call `read(256, 4, buf2)` returns 4 and
leaves `buf2 = [0xFF,0xFF,0xFF,0xFF]`, the bytes at addresses 256 to 259, not
the four bytes written at addresses 260 to 263. -/
theorem C10_scenario_read_back_counterexample :
    ∃ c1 out c2,
      write_wrapper (rawWriteBlock 256) readFlashAll 256 erasedCart 260 4
          [0xAA, 0xBB, 0xCC, 0xDD] = some (4, c1)
      ∧ read_wrapper (rawReadBlock 256) 256 c1 256 4 [0, 0, 0, 0] = some (4, out, c2)
      ∧ out = [0xFF, 0xFF, 0xFF, 0xFF]
      ∧ out ≠ [0xAA, 0xBB, 0xCC, 0xDD] := by
  have e1 : min 4 (256 - 260 % 256) = 4 := by decide
  have e2 : min 4 (256 - 256 % 256) = 4 := by decide
  obtain ⟨c1, hw, hf⟩ := write_flash isPow2_256 (x := 260) (by decide) erasedCart 4
    [0xAA, 0xBB, 0xCC, 0xDD] (by decide)
  obtain ⟨c2, hr, -⟩ := read_flash isPow2_256 (x := 256) (by decide) c1 4 [0, 0, 0, 0]
    (by decide)
  rw [e1] at hw hf
  rw [e2] at hr
  have hout : (List.range 4).map (fun i => c1.flash (256 + i)) ++ List.drop 4 [0, 0, 0, 0]
      = [0xFF, 0xFF, 0xFF, 0xFF] := by
    simp [List.range_succ, hf, erasedCart]
  rw [hout] at hr
  exact ⟨c1, _, c2, hw, hr, rfl, by decide⟩

/-- C10, amended: with alignment 256, for every initial device content, right
after `write(260, 4, [0xAA,0xBB,0xCC,0xDD])` the call `read(260, 4, buf2)` at the
address written returns 4 and leaves `buf2[0..4) = [0xAA,0xBB,0xCC,0xDD]`. -/
theorem C10_scenario_read_back (c : Cart) (buf2 : List Nat) (hbuf : 4 ≤ buf2.length) :
    ∃ c1 out c2,
      write_wrapper (rawWriteBlock 256) readFlashAll 256 c 260 4 [0xAA, 0xBB, 0xCC, 0xDD]
        = some (4, c1)
      ∧ read_wrapper (rawReadBlock 256) 256 c1 260 4 buf2 = some (4, out, c2)
      ∧ out.take 4 = [0xAA, 0xBB, 0xCC, 0xDD] := by
  have e1 : min 4 (256 - 260 % 256) = 4 := by decide
  obtain ⟨c1, hw, hf⟩ := write_flash isPow2_256 (x := 260) (by decide) c 4
    [0xAA, 0xBB, 0xCC, 0xDD] (by decide)
  obtain ⟨c2, hr, -⟩ := read_flash isPow2_256 (x := 260) (by decide) c1 4 buf2
    (by rw [e1]; exact hbuf)
  rw [e1] at hw hf hr
  refine ⟨c1, _, c2, hw, hr, ?_⟩
  rw [List.take_left' (by simp)]
  simp [List.range_succ, hf]

/-- Instance of the amended C10 on the ramp device, with a read buffer of four
zero bytes. -/
theorem C10_scenario_read_back_witness :
    ∃ c1 out c2,
      write_wrapper (rawWriteBlock 256) readFlashAll 256 rampCart 260 4 [0xAA, 0xBB, 0xCC, 0xDD]
        = some (4, c1)
      ∧ read_wrapper (rawReadBlock 256) 256 c1 260 4 [0, 0, 0, 0] = some (4, out, c2)
      ∧ out.take 4 = [0xAA, 0xBB, 0xCC, 0xDD] :=
  C10_scenario_read_back rampCart [0, 0, 0, 0] (by decide)

/-- What the always-scratch variant of `read_wrapper` computes. -/
theorem read_wrapper_scratch_eq {a x : Nat} (hp : IsPow2 a) (hx : x < U32)
    (fn : Mem → Nat → List Nat) (c : Cart) (len : Nat) (buffer : List Nat)
    (hB : (fn c.flash (x - x % a)).length = a)
    (hb : min len (a - x % a) ≤ buffer.length) :
    read_wrapper_scratch fn a c x len buffer =
      some (min len (a - x % a),
        ((fn c.flash (x - x % a)).drop (x % a)).take (min len (a - x % a))
          ++ buffer.drop (min len (a - x % a)),
        { c with
          log := c.log ++ [Call.rawRead (x - x % a)],
          allocs := c.allocs ++ [a] }) := by
  have hm := Nat.mod_lt x hp.pos
  unfold read_wrapper_scratch
  simp only [round_eq hp hx, offset_eq hx, clamp_eq hp]
  have h1 : poke (malloc c a) 0 (fn c.flash (x - x % a)) = some (fn c.flash (x - x % a)) :=
    poke_full (by rw [hB, malloc_length])
  have h2 := @memcpy_out buffer (fn c.flash (x - x % a)) (x % a)
    (min len (a - x % a)) (by rw [hB]; omega) hb
  simp [h1, h2]

/-- What the always-scratch variant of `write_wrapper` computes. -/
theorem write_wrapper_scratch_eq {a x : Nat} (hp : IsPow2 a) (hx : x < U32)
    (fn : Mem → Nat → List Nat → Mem) (readFlash : Mem → Nat → Nat → Nat × List Nat)
    (c : Cart) (len : Nat) (data : List Nat)
    (hR : (readFlash c.flash (x - x % a) a).2.length = a)
    (hd : min len (a - x % a) ≤ data.length) :
    write_wrapper_scratch fn readFlash a c x len data =
      some (min len (a - x % a),
        { c with
          flash := fn c.flash (x - x % a)
            ((readFlash c.flash (x - x % a) a).2.take (x % a)
              ++ data.take (min len (a - x % a))
              ++ (readFlash c.flash (x - x % a) a).2.drop (x % a + min len (a - x % a))),
          log := c.log ++ [Call.readFlash (x - x % a) a,
            Call.rawWrite (x - x % a)
              ((readFlash c.flash (x - x % a) a).2.take (x % a)
                ++ data.take (min len (a - x % a))
                ++ (readFlash c.flash (x - x % a) a).2.drop (x % a + min len (a - x % a)))],
          allocs := c.allocs ++ [a] }) := by
  have hm := Nat.mod_lt x hp.pos
  unfold write_wrapper_scratch
  simp only [round_eq hp hx, offset_eq hx, clamp_eq hp]
  have h1 : poke (malloc c a) 0 (readFlash c.flash (x - x % a) a).2
      = some (readFlash c.flash (x - x % a) a).2 :=
    poke_full (by rw [hR, malloc_length])
  have h2 := @memcpy_in (readFlash c.flash (x - x % a) a).2 data
    (x % a) (min len (a - x % a)) hd (by rw [hR]; omega)
  simp [h1, h2]

/-- C11. Fast-path / slow-path equivalence: on the modelled device, for every
power-of-two alignment, device content, aligned 32-bit address (`offset = 0`)
and length of at least `alignment`, `read_wrapper` and `write_wrapper` take the
zero-copy path (they allocate nothing), and they produce the same returned
value, the same caller buffer (read) and the same device content (write) as
the variants that always go through an `alignment`-byte scratch buffer. -/
theorem C11_fast_slow_equivalence (alignment : Nat) (hp : IsPow2 alignment) (c : Cart)
    (address length : Nat) (ha : address < U32) (hal : address % alignment = 0)
    (hlen : alignment ≤ length) (buffer : List Nat) (hb : length ≤ buffer.length) :
    ∃ n out c1 c2 c3 c4,
      read_wrapper (rawReadBlock alignment) alignment c address length buffer
        = some (n, out, c1)
      ∧ read_wrapper_scratch (rawReadBlock alignment) alignment c address length buffer
        = some (n, out, c2)
      ∧ write_wrapper (rawWriteBlock alignment) readFlashAll alignment c address length buffer
        = some (n, c3)
      ∧ write_wrapper_scratch (rawWriteBlock alignment) readFlashAll alignment c address length
          buffer = some (n, c4)
      ∧ c3.flash = c4.flash
      ∧ c1.allocs = c.allocs ∧ c3.allocs = c.allocs
      ∧ c2.allocs = c.allocs ++ [alignment] ∧ c4.allocs = c.allocs ++ [alignment] := by
  have hpos := hp.pos
  have hn : min length (alignment - address % alignment) = alignment := by omega
  have hnb : min length (alignment - address % alignment) ≤ buffer.length := by omega
  have hfast : ¬ (min length (alignment - address % alignment) < alignment
      ∨ address % alignment ≠ 0) := by omega
  refine ⟨_, _, _, _, _, _,
    read_wrapper_eq hp ha _ c length buffer (rawReadBlock_length _ _ _) hnb,
    read_wrapper_scratch_eq hp ha _ c length buffer (rawReadBlock_length _ _ _) hnb,
    write_wrapper_eq hp ha _ _ c length buffer (readFlashAll_length _ _ _) hnb,
    write_wrapper_scratch_eq hp ha _ _ c length buffer (readFlashAll_length _ _ _) hnb,
    ?_, ?_, ?_, rfl, rfl⟩
  · rw [if_neg hfast]
    funext y
    show rawWriteBlock alignment c.flash (address - address % alignment) buffer y
      = rawWriteBlock alignment c.flash (address - address % alignment) _ y
    unfold rawWriteBlock readFlashAll
    by_cases hy : address - address % alignment ≤ y
        ∧ y < address - address % alignment + alignment
    · rw [if_pos hy, if_pos hy, merge_getD _ _ _ _ _ _ _ (by omega) hnb (by omega),
        if_pos (by omega)]
      congr 1
      omega
    · rw [if_neg hy, if_neg hy]
  · show (if _ then _ else _) = _
    rw [if_neg hfast]
  · rw [if_neg hfast]

/-- Instance of C11: alignment 16, a request of 20 bytes at the aligned address
32 of the ramp device. -/
theorem C11_fast_slow_equivalence_witness :
    ∃ n out c1 c2 c3 c4,
      read_wrapper (rawReadBlock 16) 16 rampCart 32 20 (List.replicate 20 0)
        = some (n, out, c1)
      ∧ read_wrapper_scratch (rawReadBlock 16) 16 rampCart 32 20 (List.replicate 20 0)
        = some (n, out, c2)
      ∧ write_wrapper (rawWriteBlock 16) readFlashAll 16 rampCart 32 20 (List.replicate 20 0)
        = some (n, c3)
      ∧ write_wrapper_scratch (rawWriteBlock 16) readFlashAll 16 rampCart 32 20
          (List.replicate 20 0) = some (n, c4)
      ∧ c3.flash = c4.flash
      ∧ c1.allocs = rampCart.allocs ∧ c3.allocs = rampCart.allocs
      ∧ c2.allocs = rampCart.allocs ++ [16] ∧ c4.allocs = rampCart.allocs ++ [16] :=
  C11_fast_slow_equivalence 16 ⟨4, by decide, by decide⟩ rampCart 32 20 (by decide)
    (by decide) (by decide) (List.replicate 20 0) (by simp)

/-- One served request leaves the number of outstanding allocations as it
found it. -/
theorem serve_live {a : Nat} (hp : IsPow2 a) (c : Cart) (r : Request) (hr : r.ok = true) :
    ∃ c1, serve a c r = some c1 ∧ c1.live = c.live := by
  have hpos := hp.pos
  cases r with
  | read x len buffer =>
    simp only [Request.ok, decide_eq_true_eq] at hr
    have hm := Nat.mod_lt x hpos
    simp only [serve]
    rw [read_wrapper_eq hp hr.1 _ c len buffer (rawReadBlock_length _ _ _) (by omega)]
    exact ⟨_, rfl, rfl⟩
  | write x len buffer =>
    simp only [Request.ok, decide_eq_true_eq] at hr
    have hm := Nat.mod_lt x hpos
    simp only [serve]
    rw [write_wrapper_eq hp hr.1 _ _ c len buffer (readFlashAll_length _ _ _) (by omega)]
    refine ⟨_, rfl, ?_⟩
    simp only []
    split_ifs <;> rfl
  | erase x =>
    simp only [Request.ok, decide_eq_true_eq] at hr
    simp only [serve]
    rw [erase_wrapper_eq hp hr _ _ _ c (readFlashAll_length _ _ _)]
    refine ⟨_, rfl, ?_⟩
    simp only []
    split_ifs <;> rfl

theorem serveAll_live {a : Nat} (hp : IsPow2 a) (rs : List Request) :
    ∀ c : Cart, (∀ r ∈ rs, r.ok = true) →
      ∃ c1, serveAll a c rs = some c1 ∧ c1.live = c.live := by
  induction rs with
  | nil => intro c _; exact ⟨c, rfl, rfl⟩
  | cons r rs ih =>
    intro c h
    obtain ⟨c1, h1, hl1⟩ := serve_live hp c r (h r (List.mem_cons_self r rs))
    obtain ⟨c2, h2, hl2⟩ := ih c1 (fun q hq => h q (List.mem_cons_of_mem r hq))
    refine ⟨c2, ?_, by rw [hl2, hl1]⟩
    simp [serveAll, h1, h2]

/-- C12. No scratch-buffer leak: on the modelled device, for every power-of-two
alignment, 32-bit address, length and buffer, each call of `read_wrapper`,
`write_wrapper` and `erase_wrapper` returns with the number of outstanding
allocations it started with; it allocates at most once (`alignment` bytes when
`offset != 0` or `clamped_length < alignment` for read and write, `offset` bytes
when `offset != 0` for erase); and every sequence of requests, of 10,000 or any
other number, ends with the number of outstanding allocations it started
with. -/
theorem C12_no_leak (alignment : Nat) (hp : IsPow2 alignment) (c : Cart)
    (address length : Nat) (ha : address < U32) (buffer : List Nat)
    (hb : length ≤ buffer.length) :
    (∃ n out c1,
        read_wrapper (rawReadBlock alignment) alignment c address length buffer
          = some (n, out, c1)
        ∧ c1.live = c.live
        ∧ c1.allocs = c.allocs ++
            (if n < alignment ∨ sub32 address (PAGE_ROUND_DOWN address alignment) ≠ 0
              then [alignment] else []))
      ∧ (∃ n c1,
        write_wrapper (rawWriteBlock alignment) readFlashAll alignment c address length buffer
          = some (n, c1)
        ∧ c1.live = c.live
        ∧ c1.allocs = c.allocs ++
            (if n < alignment ∨ sub32 address (PAGE_ROUND_DOWN address alignment) ≠ 0
              then [alignment] else []))
      ∧ (∃ r c1,
        erase_wrapper (rawEraseBlock alignment) readFlashAll writeFlashAll alignment c address
          = some (r, c1)
        ∧ c1.live = c.live
        ∧ c1.allocs = c.allocs ++
            (if sub32 address (PAGE_ROUND_DOWN address alignment) ≠ 0
              then [sub32 address (PAGE_ROUND_DOWN address alignment)] else []))
      ∧ ∀ rs : List Request, (∀ r ∈ rs, r.ok = true) →
          ∃ c1, serveAll alignment c rs = some c1 ∧ c1.live = c.live := by
  have hm := Nat.mod_lt address hp.pos
  have hnb : min length (alignment - address % alignment) ≤ buffer.length := by omega
  rw [round_eq hp ha, offset_eq ha]
  refine ⟨⟨_, _, _, read_wrapper_eq hp ha _ c length buffer (rawReadBlock_length _ _ _) hnb,
      rfl, ?_⟩,
    ⟨_, _, write_wrapper_eq hp ha _ _ c length buffer (readFlashAll_length _ _ _) hnb, ?_, ?_⟩,
    ⟨_, _, erase_wrapper_eq hp ha _ _ _ c (readFlashAll_length _ _ _), ?_, ?_⟩,
    fun rs h => serveAll_live hp rs c h⟩
  · show (if _ then _ else _) = _
    split_ifs <;> simp
  · split_ifs <;> rfl
  · split_ifs <;> simp
  · split_ifs <;> rfl
  · split_ifs <;> simp

/-- Instance of C12: alignment 16, address 21, length 2, and a sequence of one
read, one write and one erase, all misaligned. -/
theorem C12_no_leak_witness :
    (∃ n out c1,
        read_wrapper (rawReadBlock 16) 16 rampCart 21 2 [1, 2] = some (n, out, c1)
        ∧ c1.live = rampCart.live
        ∧ c1.allocs = rampCart.allocs ++
            (if n < 16 ∨ sub32 21 (PAGE_ROUND_DOWN 21 16) ≠ 0 then [16] else []))
      ∧ (∃ n c1,
        write_wrapper (rawWriteBlock 16) readFlashAll 16 rampCart 21 2 [1, 2] = some (n, c1)
        ∧ c1.live = rampCart.live
        ∧ c1.allocs = rampCart.allocs ++
            (if n < 16 ∨ sub32 21 (PAGE_ROUND_DOWN 21 16) ≠ 0 then [16] else []))
      ∧ (∃ r c1,
        erase_wrapper (rawEraseBlock 16) readFlashAll writeFlashAll 16 rampCart 21
          = some (r, c1)
        ∧ c1.live = rampCart.live
        ∧ c1.allocs = rampCart.allocs ++
            (if sub32 21 (PAGE_ROUND_DOWN 21 16) ≠ 0
              then [sub32 21 (PAGE_ROUND_DOWN 21 16)] else []))
      ∧ ∀ rs : List Request, (∀ r ∈ rs, r.ok = true) →
          ∃ c1, serveAll 16 rampCart rs = some c1 ∧ c1.live = rampCart.live :=
  C12_no_leak 16 ⟨4, by decide, by decide⟩ rampCart 21 2 (by decide) [1, 2] (by decide)

/-- C13, as stated, fails: the ramp device holds `0x1000000` bytes, the requests
at address `0x2000000` lie outside it, and each wrapper still makes its raw
call there. -/
theorem C13_geometry_counterexample :
    rampCart.max_length < 0x2000000 + 4
      ∧ (∃ n out c1,
        read_wrapper (rawReadBlock 16) 16 rampCart 0x2000000 4 [0, 0, 0, 0] = some (n, out, c1)
        ∧ c1.log = [Call.rawRead 0x2000000])
      ∧ (∃ n c1 buf,
        write_wrapper (rawWriteBlock 16) readFlashAll 16 rampCart 0x2000000 4 [1, 2, 3, 4]
          = some (n, c1)
        ∧ c1.log = [Call.readFlash 0x2000000 16, Call.rawWrite 0x2000000 buf])
      ∧ (∃ r c1,
        erase_wrapper (rawEraseBlock 16) readFlashAll writeFlashAll 16 rampCart 0x2000000
          = some (r, c1)
        ∧ c1.log = [Call.rawErase 0x2000000]) :=
  ⟨by decide, ⟨_, _, _, rfl, rfl⟩, ⟨_, _, _, rfl, rfl⟩, ⟨_, _, rfl, rfl⟩⟩

/-- C13, amended: the wrappers make no geometry check.  For every device with
maximum length `max_length`, every power-of-two alignment and every request
whose range exceeds it (`address + length > max_length` for `read_wrapper` and
`write_wrapper`, `address >= max_length` for `erase_wrapper`), the wrapper
returns and has made exactly one raw call, at `round_addr`. -/
theorem C13_no_geometry_check (alignment : Nat) (hp : IsPow2 alignment)
    (fnR : Mem → Nat → List Nat) (fnE : Mem → Nat → Mem) (fnW : Mem → Nat → List Nat → Mem)
    (readFlash : Mem → Nat → Nat → Nat × List Nat)
    (writeFlash : Mem → Nat → Nat → List Nat → Nat × Mem)
    (c : Cart) (address length : Nat) (ha : address < U32) (buffer : List Nat)
    (hfn : ∀ m r, (fnR m r).length = alignment)
    (hrf : ∀ m r k, (readFlash m r k).2.length = k)
    (hb : length ≤ buffer.length) :
    (c.max_length < address + length →
        ∃ n out c1, read_wrapper fnR alignment c address length buffer = some (n, out, c1)
          ∧ c1.log.filterMap Call.rawAddress
            = c.log.filterMap Call.rawAddress ++ [PAGE_ROUND_DOWN address alignment])
      ∧ (c.max_length < address + length →
        ∃ n c1, write_wrapper fnW readFlash alignment c address length buffer = some (n, c1)
          ∧ c1.log.filterMap Call.rawAddress
            = c.log.filterMap Call.rawAddress ++ [PAGE_ROUND_DOWN address alignment])
      ∧ (c.max_length ≤ address →
        ∃ r c1, erase_wrapper fnE readFlash writeFlash alignment c address = some (r, c1)
          ∧ c1.log.filterMap Call.rawAddress
            = c.log.filterMap Call.rawAddress ++ [PAGE_ROUND_DOWN address alignment]) := by
  have hm := Nat.mod_lt address hp.pos
  have hnb : min length (alignment - address % alignment) ≤ buffer.length := by omega
  rw [round_eq hp ha]
  refine ⟨fun _ => ⟨_, _, _, read_wrapper_eq hp ha fnR c length buffer (hfn _ _) hnb, ?_⟩,
    fun _ => ⟨_, _, write_wrapper_eq hp ha fnW readFlash c length buffer (hrf _ _ _) hnb, ?_⟩,
    fun _ => ⟨_, _, erase_wrapper_eq hp ha fnE readFlash writeFlash c (hrf _ _ _), ?_⟩⟩
  · simp [List.filterMap_append, Call.rawAddress]
  · split_ifs <;> simp [List.filterMap_append, Call.rawAddress]
  · split_ifs <;> simp [List.filterMap_append, Call.rawAddress]

/-- Instance of the amended C13: the ramp device holds `0x1000000` bytes and the
requests are made at address `0x2000005`, outside it. -/
theorem C13_no_geometry_check_witness :
    (rampCart.max_length < 0x2000005 + 4 ∧ rampCart.max_length ≤ 0x2000005)
      ∧ (rampCart.max_length < 0x2000005 + 4 →
        ∃ n out c1, read_wrapper (rawReadBlock 16) 16 rampCart 0x2000005 4 [0, 0, 0, 0]
            = some (n, out, c1)
          ∧ c1.log.filterMap Call.rawAddress
            = rampCart.log.filterMap Call.rawAddress ++ [PAGE_ROUND_DOWN 0x2000005 16])
      ∧ (rampCart.max_length < 0x2000005 + 4 →
        ∃ n c1, write_wrapper (rawWriteBlock 16) readFlashAll 16 rampCart 0x2000005 4
            [0, 0, 0, 0] = some (n, c1)
          ∧ c1.log.filterMap Call.rawAddress
            = rampCart.log.filterMap Call.rawAddress ++ [PAGE_ROUND_DOWN 0x2000005 16])
      ∧ (rampCart.max_length ≤ 0x2000005 →
        ∃ r c1, erase_wrapper (rawEraseBlock 16) readFlashAll writeFlashAll 16 rampCart
            0x2000005 = some (r, c1)
          ∧ c1.log.filterMap Call.rawAddress
            = rampCart.log.filterMap Call.rawAddress ++ [PAGE_ROUND_DOWN 0x2000005 16]) :=
  ⟨by decide,
    C13_no_geometry_check 16 ⟨4, by decide, by decide⟩ (rawReadBlock 16) (rawEraseBlock 16)
      (rawWriteBlock 16) readFlashAll writeFlashAll rampCart 0x2000005 4 (by decide)
      [0, 0, 0, 0] (fun m r => rawReadBlock_length 16 m r)
      (fun m r k => readFlashAll_length m r k) (by decide)⟩

/-- What `write_wrapper` returns and which calls it makes when `readFlash`
stores at most the bytes it was asked for, whatever it reports. -/
theorem write_wrapper_le {a x : Nat} (hp : IsPow2 a) (hx : x < U32)
    (fn : Mem → Nat → List Nat → Mem) (readFlash : Mem → Nat → Nat → Nat × List Nat)
    (c : Cart) (len : Nat) (data : List Nat)
    (hR : (readFlash c.flash (x - x % a) a).2.length ≤ a)
    (hd : min len (a - x % a) ≤ data.length) :
    ∃ c1 buf, write_wrapper fn readFlash a c x len data = some (min len (a - x % a), c1)
      ∧ buf.length = a
      ∧ c1.log = c.log ++
          (if min len (a - x % a) < a ∨ x % a ≠ 0 then
            [Call.readFlash (x - x % a) a, Call.rawWrite (x - x % a) buf]
          else [Call.rawWrite (x - x % a) data]) := by
  have hm := Nat.mod_lt x hp.pos
  unfold write_wrapper
  simp only [round_eq hp hx, offset_eq hx, clamp_eq hp]
  split_ifs with h
  · have h1 := @poke_zero (malloc c a) (readFlash c.flash (x - x % a) a).2
      (by rw [malloc_length]; exact hR)
    have hl : ((readFlash c.flash (x - x % a) a).2
        ++ (malloc c a).drop (readFlash c.flash (x - x % a) a).2.length).length = a := by
      rw [List.length_append, List.length_drop, malloc_length]; omega
    have h2 := @memcpy_in _ data (x % a) (min len (a - x % a)) hd
      (le_of_le_of_eq (by omega) hl.symm)
    simp only [h1, h2, Option.bind_eq_bind, Option.some_bind, pure]
    refine ⟨_, _, rfl, ?_, List.append_assoc _ _ _⟩
    simp only [List.length_append, List.length_take, List.length_drop, hl]
    omega
  · exact ⟨_, List.replicate a 0, rfl, List.length_replicate a 0, rfl⟩

/-- What `erase_wrapper` returns when `readFlash` stores at most the bytes it
was asked for, whatever it and `writeFlash` report. -/
theorem erase_wrapper_le {a x : Nat} (hp : IsPow2 a) (hx : x < U32)
    (fn : Mem → Nat → Mem) (readFlash : Mem → Nat → Nat → Nat × List Nat)
    (writeFlash : Mem → Nat → Nat → List Nat → Nat × Mem) (c : Cart)
    (hR : (readFlash c.flash (x - x % a) (x % a)).2.length ≤ x % a) :
    ∃ c1, erase_wrapper fn readFlash writeFlash a c x = some (a - x % a, c1) := by
  unfold erase_wrapper
  simp only [round_eq hp hx, offset_eq hx, clamp_eq hp]
  split_ifs with h
  · have h1 := @poke_zero (malloc c (x % a)) (readFlash c.flash (x - x % a) (x % a)).2
      (by rw [malloc_length]; exact hR)
    simp [h1]
  · simp

/-- C14, as stated, fails: with a `readFlash` that stores nothing and reports 0
bytes, `write_wrapper` returns 1, the value it returns when `readFlash`
succeeds, and goes on to raw-write the scratch block, which holds the
uninitialised bytes of the allocation around the caller's byte; with failing
`readFlash` and `writeFlash`, `erase_wrapper` returns 13 as it does when both
succeed. -/
theorem C14_failure_counterexample :
    (readFlashFail rampCart.flash 0 16).1 < 16
      ∧ (∃ c1 c2,
        write_wrapper (rawWriteBlock 16) readFlashFail 16 rampCart 3 1 [7] = some (1, c1)
        ∧ write_wrapper (rawWriteBlock 16) readFlashAll 16 rampCart 3 1 [7] = some (1, c2)
        ∧ c1.log = [Call.readFlash 0 16,
            Call.rawWrite 0 [0xCD, 0xCD, 0xCD, 7, 0xCD, 0xCD, 0xCD, 0xCD,
              0xCD, 0xCD, 0xCD, 0xCD, 0xCD, 0xCD, 0xCD, 0xCD]])
      ∧ (∃ c1 c2,
        erase_wrapper (rawEraseBlock 16) readFlashFail writeFlashFail 16 rampCart 19
          = some (13, c1)
        ∧ erase_wrapper (rawEraseBlock 16) readFlashAll writeFlashAll 16 rampCart 19
          = some (13, c2)) :=
  ⟨by decide, ⟨_, _, rfl, rfl, rfl⟩, ⟨_, _, rfl, rfl⟩⟩

/-- C14, amended: failures of the operations a wrapper calls are not reported.
For every power-of-two alignment and request, whatever `readFlash` and
`writeFlash` report and however few of the requested bytes `readFlash` stores,
`write_wrapper` returns `clamped_length` and `erase_wrapper` returns
`alignment - offset`, and on the scratch path `write_wrapper` goes on to
raw-write its `alignment`-byte scratch block at `round_addr`. -/
theorem C14_failures_not_reported (alignment : Nat) (hp : IsPow2 alignment)
    (fnW : Mem → Nat → List Nat → Mem) (fnE : Mem → Nat → Mem)
    (readFlash : Mem → Nat → Nat → Nat × List Nat)
    (writeFlash : Mem → Nat → Nat → List Nat → Nat × Mem)
    (c : Cart) (address length : Nat) (ha : address < U32) (buffer : List Nat)
    (hrf : ∀ m r k, (readFlash m r k).2.length ≤ k)
    (hb : length ≤ buffer.length) :
    (∃ c1 buf,
        write_wrapper fnW readFlash alignment c address length buffer
          = some (min length (sub32 alignment (sub32 address (PAGE_ROUND_DOWN address alignment))),
              c1)
        ∧ buf.length = alignment
        ∧ c1.log = c.log ++
            (if min length (sub32 alignment (sub32 address (PAGE_ROUND_DOWN address alignment)))
                  < alignment
                ∨ sub32 address (PAGE_ROUND_DOWN address alignment) ≠ 0 then
              [Call.readFlash (PAGE_ROUND_DOWN address alignment) alignment,
                Call.rawWrite (PAGE_ROUND_DOWN address alignment) buf]
            else [Call.rawWrite (PAGE_ROUND_DOWN address alignment) buffer]))
      ∧ ∃ c2, erase_wrapper fnE readFlash writeFlash alignment c address
          = some (sub32 alignment (sub32 address (PAGE_ROUND_DOWN address alignment)), c2) := by
  have hm := Nat.mod_lt address hp.pos
  have hnb : min length (alignment - address % alignment) ≤ buffer.length := by omega
  rw [round_eq hp ha, offset_eq ha, clamp_eq hp]
  exact ⟨write_wrapper_le hp ha fnW readFlash c length buffer (hrf _ _ _) hnb,
    erase_wrapper_le hp ha fnE readFlash writeFlash c (hrf _ _ _)⟩

/-- Instance of the amended C14 with the failing `readFlash` and `writeFlash`:
alignment 16, address 19, one byte. -/
theorem C14_failures_not_reported_witness :
    (∃ c1 buf,
        write_wrapper (rawWriteBlock 16) readFlashFail 16 rampCart 19 1 [7]
          = some (min 1 (sub32 16 (sub32 19 (PAGE_ROUND_DOWN 19 16))), c1)
        ∧ buf.length = 16
        ∧ c1.log = rampCart.log ++
            (if min 1 (sub32 16 (sub32 19 (PAGE_ROUND_DOWN 19 16))) < 16
                ∨ sub32 19 (PAGE_ROUND_DOWN 19 16) ≠ 0 then
              [Call.readFlash (PAGE_ROUND_DOWN 19 16) 16,
                Call.rawWrite (PAGE_ROUND_DOWN 19 16) buf]
            else [Call.rawWrite (PAGE_ROUND_DOWN 19 16) [7]]))
      ∧ ∃ c2, erase_wrapper (rawEraseBlock 16) readFlashFail writeFlashFail 16 rampCart 19
          = some (sub32 16 (sub32 19 (PAGE_ROUND_DOWN 19 16)), c2) :=
  C14_failures_not_reported 16 ⟨4, by decide, by decide⟩ (rawWriteBlock 16) (rawEraseBlock 16)
    readFlashFail writeFlashFail rampCart 19 1 (by decide) [7]
    (fun _ _ k => Nat.zero_le k) (by decide)

/-! ## Runs with an allocator that may fail -/

/-- With an allocation that succeeds, `read_wrapper_run` returns exactly what
`read_wrapper` returns. -/
theorem read_wrapper_run_heap (fn : Mem → Nat → List Nat) (a : Nat) (c : Cart)
    (x len : Nat) (buffer : List Nat) (n : Nat) (out : List Nat) (c1 : Cart) :
    read_wrapper_run true fn a c x len buffer = Run.returned (n, out) c1
      ↔ read_wrapper fn a c x len buffer = some (n, out, c1) := by
  unfold read_wrapper_run read_wrapper
  simp only []
  split_ifs with h
  · simp only [if_true, pokePtr, memcpyFrom]
    cases h1 : poke (malloc c a) 0 (fn c.flash (PAGE_ROUND_DOWN x a)) with
    | none => simp
    | some buf =>
      cases h2 : memcpy buffer 0 buf (sub32 x (PAGE_ROUND_DOWN x a))
          (min len (sub32 a (sub32 x (PAGE_ROUND_DOWN x a)))) with
      | none => simp [h2]
      | some b => simp [h2, and_assoc]
  · cases h1 : poke buffer 0 (fn c.flash (PAGE_ROUND_DOWN x a)) with
    | none => simp
    | some b => simp [and_assoc]

/-- With an allocation that succeeds, `write_wrapper_run` returns exactly what
`write_wrapper` returns. -/
theorem write_wrapper_run_heap (fn : Mem → Nat → List Nat → Mem)
    (readFlash : Mem → Nat → Nat → Nat × List Nat) (a : Nat) (c : Cart)
    (x len : Nat) (buffer : List Nat) (n : Nat) (c1 : Cart) :
    write_wrapper_run true fn readFlash a c x len buffer = Run.returned n c1
      ↔ write_wrapper fn readFlash a c x len buffer = some (n, c1) := by
  unfold write_wrapper_run write_wrapper
  simp only []
  split_ifs with h
  · simp only [if_true, pokePtr, memcpyTo]
    cases h1 : poke (malloc c a) 0 (readFlash c.flash (PAGE_ROUND_DOWN x a) a).2 with
    | none => simp
    | some buf =>
      cases h2 : memcpy buf (sub32 x (PAGE_ROUND_DOWN x a)) buffer 0
          (min len (sub32 a (sub32 x (PAGE_ROUND_DOWN x a)))) with
      | none => simp [h2]
      | some b => simp [h2]
  · simp

/-- With an allocation that succeeds, `erase_wrapper_run` returns exactly what
`erase_wrapper` returns. -/
theorem erase_wrapper_run_heap (fn : Mem → Nat → Mem)
    (readFlash : Mem → Nat → Nat → Nat × List Nat)
    (writeFlash : Mem → Nat → Nat → List Nat → Nat × Mem) (a : Nat) (c : Cart)
    (x : Nat) (r : Nat) (c1 : Cart) :
    erase_wrapper_run true fn readFlash writeFlash a c x = Run.returned r c1
      ↔ erase_wrapper fn readFlash writeFlash a c x = some (r, c1) := by
  unfold erase_wrapper_run erase_wrapper
  simp only []
  split_ifs with h
  · simp only [if_true, pokePtr]
    cases h1 : poke (malloc c (sub32 x (PAGE_ROUND_DOWN x a))) 0
        (readFlash c.flash (PAGE_ROUND_DOWN x a) (sub32 x (PAGE_ROUND_DOWN x a))).2 with
    | none => simp
    | some buf => simp
  · simp

/-- C16, as stated, fails: alignment 16, `erase_wrapper(19)` makes one raw call
and two auxiliary calls, `readFlash` before the raw erase and `writeFlash` after
it. -/
theorem C16_call_budget_counterexample :
    ∃ r c1, erase_wrapper (rawEraseBlock 16) readFlashAll writeFlashAll 16 rampCart 19
        = some (r, c1)
      ∧ c1.log = [Call.readFlash 16 3, Call.rawErase 16, Call.writeFlash 16 3 [16, 17, 18]]
      ∧ c1.log.countP Call.isRaw = 1
      ∧ c1.log.countP Call.isAux = 2 :=
  ⟨_, _, rfl, rfl, rfl, rfl⟩

/-- C16, amended: call budget of one adapter invocation.  For every
power-of-two alignment, 32-bit address, length and buffer, each call of
`read_wrapper`, `write_wrapper` and `erase_wrapper` makes exactly one raw device
call.  `read_wrapper` makes no auxiliary call, `write_wrapper` makes one
(`readFlash`) on the scratch path and none otherwise, and `erase_wrapper` makes
two (`readFlash` and `writeFlash`) when `offset != 0` and none otherwise. -/
theorem C16_call_budget (alignment : Nat) (hp : IsPow2 alignment)
    (fnR : Mem → Nat → List Nat) (fnE : Mem → Nat → Mem) (fnW : Mem → Nat → List Nat → Mem)
    (readFlash : Mem → Nat → Nat → Nat × List Nat)
    (writeFlash : Mem → Nat → Nat → List Nat → Nat × Mem)
    (c : Cart) (address length : Nat) (ha : address < U32) (buffer : List Nat)
    (hfn : ∀ m r, (fnR m r).length = alignment)
    (hrf : ∀ m r k, (readFlash m r k).2.length = k)
    (hb : length ≤ buffer.length) :
    (∃ n out c1 calls, read_wrapper fnR alignment c address length buffer = some (n, out, c1)
        ∧ c1.log = c.log ++ calls
        ∧ calls.countP Call.isRaw = 1 ∧ calls.countP Call.isAux = 0)
      ∧ (∃ n c1 calls, write_wrapper fnW readFlash alignment c address length buffer
          = some (n, c1)
        ∧ c1.log = c.log ++ calls
        ∧ calls.countP Call.isRaw = 1
        ∧ calls.countP Call.isAux =
            if n < alignment ∨ sub32 address (PAGE_ROUND_DOWN address alignment) ≠ 0
              then 1 else 0)
      ∧ (∃ r c1 calls, erase_wrapper fnE readFlash writeFlash alignment c address
          = some (r, c1)
        ∧ c1.log = c.log ++ calls
        ∧ calls.countP Call.isRaw = 1
        ∧ calls.countP Call.isAux =
            if sub32 address (PAGE_ROUND_DOWN address alignment) ≠ 0 then 2 else 0) := by
  have hm := Nat.mod_lt address hp.pos
  have hnb : min length (alignment - address % alignment) ≤ buffer.length := by omega
  rw [round_eq hp ha, offset_eq ha]
  refine ⟨⟨_, _, _, _, read_wrapper_eq hp ha fnR c length buffer (hfn _ _) hnb, rfl, rfl, rfl⟩,
    ?_, ?_⟩
  · rw [write_wrapper_eq hp ha fnW readFlash c length buffer (hrf _ _ _) hnb]
    by_cases h : min length (alignment - address % alignment) < alignment
        ∨ address % alignment ≠ 0
    · rw [if_pos h]
      exact ⟨_, _, _, rfl, rfl, rfl, by rw [if_pos h]; rfl⟩
    · rw [if_neg h]
      exact ⟨_, _, _, rfl, rfl, rfl, by rw [if_neg h]; rfl⟩
  · rw [erase_wrapper_eq hp ha fnE readFlash writeFlash c (hrf _ _ _)]
    by_cases h : address % alignment ≠ 0
    · rw [if_pos h]
      exact ⟨_, _, _, rfl, rfl, rfl, by rw [if_pos h]; rfl⟩
    · rw [if_neg h]
      exact ⟨_, _, _, rfl, rfl, rfl, by rw [if_neg h]; rfl⟩

/-- Instance of the amended C16: alignment 16, address 21, length 2. -/
theorem C16_call_budget_witness :
    (∃ n out c1 calls, read_wrapper (rawReadBlock 16) 16 rampCart 21 2 [1, 2]
          = some (n, out, c1)
        ∧ c1.log = rampCart.log ++ calls
        ∧ calls.countP Call.isRaw = 1 ∧ calls.countP Call.isAux = 0)
      ∧ (∃ n c1 calls, write_wrapper (rawWriteBlock 16) readFlashAll 16 rampCart 21 2 [1, 2]
          = some (n, c1)
        ∧ c1.log = rampCart.log ++ calls
        ∧ calls.countP Call.isRaw = 1
        ∧ calls.countP Call.isAux =
            if n < 16 ∨ sub32 21 (PAGE_ROUND_DOWN 21 16) ≠ 0 then 1 else 0)
      ∧ (∃ r c1 calls, erase_wrapper (rawEraseBlock 16) readFlashAll writeFlashAll 16 rampCart 21
          = some (r, c1)
        ∧ c1.log = rampCart.log ++ calls
        ∧ calls.countP Call.isRaw = 1
        ∧ calls.countP Call.isAux =
            if sub32 21 (PAGE_ROUND_DOWN 21 16) ≠ 0 then 2 else 0) :=
  C16_call_budget 16 ⟨4, by decide, by decide⟩ (rawReadBlock 16) (rawEraseBlock 16)
    (rawWriteBlock 16) readFlashAll writeFlashAll rampCart 21 2 (by decide) [1, 2]
    (fun m r => rawReadBlock_length 16 m r) (fun m r k => readFlashAll_length m r k)
    (by decide)

/-- C17. Order and arguments of `erase_wrapper`'s calls: for every power-of-two
alignment and 32-bit address, when `offset > 0` the calls made are exactly
`readFlash(round_addr, offset, extra)`, the raw erase at `round_addr` and
`writeFlash(round_addr, offset, extra)`, in this order, and the bytes passed to
`writeFlash` are the bytes `readFlash` produced from the content before the
erase; when `offset = 0` the only call is the raw erase at `round_addr`. -/
theorem C17_erase_trace (alignment : Nat) (hp : IsPow2 alignment)
    (fn : Mem → Nat → Mem) (readFlash : Mem → Nat → Nat → Nat × List Nat)
    (writeFlash : Mem → Nat → Nat → List Nat → Nat × Mem)
    (c : Cart) (address : Nat) (ha : address < U32)
    (hrf : ∀ m r k, (readFlash m r k).2.length = k) :
    ∃ r c1, erase_wrapper fn readFlash writeFlash alignment c address = some (r, c1)
      ∧ (sub32 address (PAGE_ROUND_DOWN address alignment) ≠ 0 →
          c1.log = c.log ++
            [Call.readFlash (PAGE_ROUND_DOWN address alignment)
                (sub32 address (PAGE_ROUND_DOWN address alignment)),
              Call.rawErase (PAGE_ROUND_DOWN address alignment),
              Call.writeFlash (PAGE_ROUND_DOWN address alignment)
                (sub32 address (PAGE_ROUND_DOWN address alignment))
                (readFlash c.flash (PAGE_ROUND_DOWN address alignment)
                  (sub32 address (PAGE_ROUND_DOWN address alignment))).2])
      ∧ (sub32 address (PAGE_ROUND_DOWN address alignment) = 0 →
          c1.log = c.log ++ [Call.rawErase (PAGE_ROUND_DOWN address alignment)]) := by
  rw [round_eq hp ha, offset_eq ha]
  refine ⟨_, _, erase_wrapper_eq hp ha fn readFlash writeFlash c (hrf _ _ _), ?_, ?_⟩
  · intro h
    rw [if_pos h]
  · intro h
    rw [if_neg (not_not.2 h)]

/-- Instance of C17: alignment 16, erase at address 19 (offset 3). -/
theorem C17_erase_trace_witness :
    ∃ r c1, erase_wrapper (rawEraseBlock 16) readFlashAll writeFlashAll 16 rampCart 19
        = some (r, c1)
      ∧ (sub32 19 (PAGE_ROUND_DOWN 19 16) ≠ 0 →
          c1.log = rampCart.log ++
            [Call.readFlash (PAGE_ROUND_DOWN 19 16) (sub32 19 (PAGE_ROUND_DOWN 19 16)),
              Call.rawErase (PAGE_ROUND_DOWN 19 16),
              Call.writeFlash (PAGE_ROUND_DOWN 19 16) (sub32 19 (PAGE_ROUND_DOWN 19 16))
                (readFlashAll rampCart.flash (PAGE_ROUND_DOWN 19 16)
                  (sub32 19 (PAGE_ROUND_DOWN 19 16))).2])
      ∧ (sub32 19 (PAGE_ROUND_DOWN 19 16) = 0 →
          c1.log = rampCart.log ++ [Call.rawErase (PAGE_ROUND_DOWN 19 16)]) :=
  C17_erase_trace 16 ⟨4, by decide, by decide⟩ (rawEraseBlock 16) readFlashAll writeFlashAll
    rampCart 19 (by decide) (fun m r k => readFlashAll_length m r k)

/-- The caller's loop over `read_wrapper`: with fuel for `length` calls it
returns, it makes `ceil((offset + length) / alignment)` calls and it delivers
the device content at `[address, address + length)`. -/
theorem readLoop_spec {a : Nat} (hp : IsPow2 a) (fuel : Nat) :
    ∀ (c : Cart) (x len : Nat) (buffer : List Nat), x + len ≤ U32 → len ≤ buffer.length →
      len ≤ fuel →
      ∃ c1, readLoop a fuel c x len buffer
          = some (if len = 0 then 0 else (x % a + len + a - 1) / a,
              (List.range len).map (fun i => c.flash (x + i)) ++ buffer.drop len, c1)
        ∧ c1.flash = c.flash := by
  have hpos := hp.pos
  induction fuel with
  | zero =>
    intro c x len buffer _ _ hf
    have h0 : len = 0 := by omega
    subst h0
    exact ⟨c, by simp [readLoop], rfl⟩
  | succ fuel ih =>
    intro c x len buffer hx hb hf
    by_cases h0 : len = 0
    · subst h0
      exact ⟨c, by simp [readLoop], rfl⟩
    · have hxlt : x < U32 := by omega
      have hm := Nat.mod_lt x hpos
      have hle := Nat.mod_le x a
      have hn1 : 1 ≤ min len (a - x % a) := by omega
      have hnl : min len (a - x % a) ≤ len := Nat.min_le_left _ _
      obtain ⟨c1, hr, hf1⟩ := read_flash hp hxlt c len buffer (by omega)
      have hU := U32_val
      have hx2 : (x + min len (a - x % a)) % U32 + (len - min len (a - x % a)) ≤ U32 := by
        by_cases hl : len - min len (a - x % a) = 0
        · have := Nat.mod_lt (x + min len (a - x % a)) (by omega : 0 < U32)
          omega
        · rw [Nat.mod_eq_of_lt (show x + min len (a - x % a) < U32 by omega)]
          omega
      obtain ⟨c2, hl2, hf2⟩ := ih c1 ((x + min len (a - x % a)) % U32)
        (len - min len (a - x % a)) (buffer.drop (min len (a - x % a))) hx2
        (by rw [List.length_drop]; omega) (by omega)
      have hlen : ((List.range (min len (a - x % a))).map (fun i => c.flash (x + i))).length
          = min len (a - x % a) := by simp
      refine ⟨c2, ?_, by rw [hf2, hf1]⟩
      rw [readLoop, if_neg h0, hr]
      simp only [Option.bind_eq_bind, Option.some_bind, List.drop_left' hlen,
        List.take_left' hlen, hl2, pure, hf1, List.drop_drop, if_neg h0]
      congr 1
      refine Prod.ext ?_ (Prod.ext ?_ rfl)
      · show (if len - min len (a - x % a) = 0 then 0
            else ((x + min len (a - x % a)) % U32 % a + (len - min len (a - x % a)) + a - 1) / a)
            + 1 = (x % a + len + a - 1) / a
        by_cases hl : len - min len (a - x % a) = 0
        · rw [if_pos hl]
          have h1 : a ≤ x % a + len + a - 1 := by omega
          have h2 : x % a + len + a - 1 < 2 * a := by omega
          have : (x % a + len + a - 1) / a = 1 := by
            apply Nat.div_eq_of_lt_le <;> omega
          omega
        · rw [if_neg hl]
          have hmin : min len (a - x % a) = a - x % a := by omega
          have hmod : (x + min len (a - x % a)) % U32 % a = 0 := by
            rw [Nat.mod_eq_of_lt (show x + min len (a - x % a) < U32 by omega), hmin]
            have e : x + (a - x % a) = (x - x % a) + a := by omega
            rw [e, Nat.add_mod_right]
            exact round_mod
          rw [hmod, hmin]
          have e2 : x % a + len + a - 1 = (0 + (len - (a - x % a)) + a - 1) + a := by omega
          rw [e2, Nat.add_div_right _ hpos]
      · show (List.range (min len (a - x % a))).map (fun i => c.flash (x + i))
            ++ ((List.range (len - min len (a - x % a))).map
                (fun i => c.flash ((x + min len (a - x % a)) % U32 + i))
              ++ List.drop (min len (a - x % a) + (len - min len (a - x % a))) buffer)
            = (List.range len).map (fun i => c.flash (x + i)) ++ buffer.drop len
        have e3 : min len (a - x % a) + (len - min len (a - x % a)) = len := by omega
        rw [e3, ← List.append_assoc]
        congr 1
        by_cases hl : len - min len (a - x % a) = 0
        · have e4 : min len (a - x % a) = len := by omega
          rw [hl, e4]
          simp
        · rw [Nat.mod_eq_of_lt (show x + min len (a - x % a) < U32 by omega)]
          conv_rhs => rw [← e3, List.range_add, List.map_append, List.map_map]
          congr 1
          apply List.map_congr_left
          intro i _
          simp [Nat.add_assoc]

/-- C18. The caller's loop over `read_wrapper` services an arbitrary range: on
the modelled device, for every power-of-two alignment, device content, address
and length with `address + length <= 2^32` and a buffer of at least `length`
bytes, the loop returns whenever it is given fuel for `length` calls; for
`length >= 1` it makes exactly `ceil((offset0 + length) / alignment)` calls,
`offset0` being the offset of the first call; and it leaves in the caller's
buffer the device bytes at `[address, address + length)` in order, followed by
the bytes the buffer held before. -/
theorem C18_read_loop (alignment : Nat) (hp : IsPow2 alignment) (c : Cart)
    (address length : Nat) (hal : address + length ≤ U32) (buffer : List Nat)
    (hb : length ≤ buffer.length) (fuel : Nat) (hfuel : length ≤ fuel) :
    ∃ calls out c1, readLoop alignment fuel c address length buffer = some (calls, out, c1)
      ∧ (1 ≤ length →
          calls = (sub32 address (PAGE_ROUND_DOWN address alignment) + length + alignment - 1)
            / alignment
          ∧ alignment * (calls - 1)
            < sub32 address (PAGE_ROUND_DOWN address alignment) + length
          ∧ sub32 address (PAGE_ROUND_DOWN address alignment) + length ≤ alignment * calls)
      ∧ out = (List.range length).map (fun i => c.flash (address + i)) ++ buffer.drop length := by
  have hpos := hp.pos
  obtain ⟨c1, h, -⟩ := readLoop_spec hp fuel c address length buffer hal hb hfuel
  refine ⟨_, _, c1, h, ?_, rfl⟩
  intro h1
  have ha : address < U32 := by omega
  rw [round_eq hp ha, offset_eq ha, if_neg (by omega)]
  have hdm := Nat.div_add_mod (address % alignment + length + alignment - 1) alignment
  have hml := Nat.mod_lt (address % alignment + length + alignment - 1) hpos
  have hk : 1 ≤ (address % alignment + length + alignment - 1) / alignment :=
    (Nat.le_div_iff_mul_le hpos).2 (by omega)
  have hmul : alignment * ((address % alignment + length + alignment - 1) / alignment - 1)
      = alignment * ((address % alignment + length + alignment - 1) / alignment) - alignment := by
    rw [Nat.mul_sub_one]
  refine ⟨rfl, ?_, ?_⟩
  · rw [hmul]; omega
  · omega

/-- Instance of C18: alignment 16, 40 bytes from address 21 of the ramp device,
fuel for 40 calls. -/
theorem C18_read_loop_witness :
    ∃ calls out c1, readLoop 16 40 rampCart 21 40 (List.replicate 40 0) = some (calls, out, c1)
      ∧ (1 ≤ 40 →
          calls = (sub32 21 (PAGE_ROUND_DOWN 21 16) + 40 + 16 - 1) / 16
          ∧ 16 * (calls - 1) < sub32 21 (PAGE_ROUND_DOWN 21 16) + 40
          ∧ sub32 21 (PAGE_ROUND_DOWN 21 16) + 40 ≤ 16 * calls)
      ∧ out = (List.range 40).map (fun i => rampCart.flash (21 + i))
          ++ (List.replicate 40 0).drop 40 :=
  C18_read_loop 16 ⟨4, by decide, by decide⟩ rampCart 21 40 (by decide)
    (List.replicate 40 0) (by simp) 40 (by decide)

/-- C19. Zero-length requests still touch the device and report no progress:
for every power-of-two alignment and 32-bit address, `read_wrapper` and
`write_wrapper` return 0 exactly when the requested length is 0 and at least 1
otherwise; with length 0 both allocate the scratch block, `read_wrapper` makes
its raw read and leaves the caller's buffer as it was, and `write_wrapper` calls
`readFlash(round_addr, alignment)` and raw-writes at `round_addr` exactly the
block `readFlash` produced. -/
theorem C19_zero_length (alignment : Nat) (hp : IsPow2 alignment)
    (fnR : Mem → Nat → List Nat) (fnW : Mem → Nat → List Nat → Mem)
    (readFlash : Mem → Nat → Nat → Nat × List Nat)
    (c : Cart) (address length : Nat) (ha : address < U32) (buffer : List Nat)
    (hfn : ∀ m r, (fnR m r).length = alignment)
    (hrf : ∀ m r k, (readFlash m r k).2.length = k)
    (hb : length ≤ buffer.length) :
    ∃ n out c1 c2,
      read_wrapper fnR alignment c address length buffer = some (n, out, c1)
      ∧ write_wrapper fnW readFlash alignment c address length buffer = some (n, c2)
      ∧ (n = 0 ↔ length = 0)
      ∧ (length ≠ 0 → 1 ≤ n)
      ∧ (length = 0 →
          c1.allocs = c.allocs ++ [alignment]
          ∧ c1.log = c.log ++ [Call.rawRead (PAGE_ROUND_DOWN address alignment)]
          ∧ out = buffer
          ∧ c2.allocs = c.allocs ++ [alignment]
          ∧ c2.log = c.log ++
              [Call.readFlash (PAGE_ROUND_DOWN address alignment) alignment,
                Call.rawWrite (PAGE_ROUND_DOWN address alignment)
                  (readFlash c.flash (PAGE_ROUND_DOWN address alignment) alignment).2]
          ∧ c2.flash = fnW c.flash (PAGE_ROUND_DOWN address alignment)
              (readFlash c.flash (PAGE_ROUND_DOWN address alignment) alignment).2) := by
  have hpos := hp.pos
  have hm := Nat.mod_lt address hpos
  have hnb : min length (alignment - address % alignment) ≤ buffer.length := by omega
  rw [round_eq hp ha]
  refine ⟨_, _, _, _, read_wrapper_eq hp ha fnR c length buffer (hfn _ _) hnb,
    write_wrapper_eq hp ha fnW readFlash c length buffer (hrf _ _ _) hnb,
    by omega, by omega, ?_⟩
  intro h0
  subst h0
  have hn : min 0 (alignment - address % alignment) = 0 := Nat.zero_min _
  have hs : min 0 (alignment - address % alignment) < alignment ∨ address % alignment ≠ 0 := by
    left; omega
  rw [if_pos hs]
  simp only [hn, if_pos (Or.inl hpos : 0 < alignment ∨ address % alignment ≠ 0),
    List.take_zero, List.drop_zero, List.nil_append, List.append_nil, Nat.add_zero,
    List.take_append_drop, and_self]

/-- Instance of C19: alignment 16, a request of length 0 at address 21. -/
theorem C19_zero_length_witness :
    ∃ n out c1 c2,
      read_wrapper (rawReadBlock 16) 16 rampCart 21 0 [1, 2] = some (n, out, c1)
      ∧ write_wrapper (rawWriteBlock 16) readFlashAll 16 rampCart 21 0 [1, 2] = some (n, c2)
      ∧ (n = 0 ↔ 0 = 0)
      ∧ (0 ≠ 0 → 1 ≤ n)
      ∧ (0 = 0 →
          c1.allocs = rampCart.allocs ++ [16]
          ∧ c1.log = rampCart.log ++ [Call.rawRead (PAGE_ROUND_DOWN 21 16)]
          ∧ out = [1, 2]
          ∧ c2.allocs = rampCart.allocs ++ [16]
          ∧ c2.log = rampCart.log ++
              [Call.readFlash (PAGE_ROUND_DOWN 21 16) 16,
                Call.rawWrite (PAGE_ROUND_DOWN 21 16)
                  (readFlashAll rampCart.flash (PAGE_ROUND_DOWN 21 16) 16).2]
          ∧ c2.flash = rawWriteBlock 16 rampCart.flash (PAGE_ROUND_DOWN 21 16)
              (readFlashAll rampCart.flash (PAGE_ROUND_DOWN 21 16) 16).2) :=
  C19_zero_length 16 ⟨4, by decide, by decide⟩ (rawReadBlock 16) (rawWriteBlock 16)
    readFlashAll rampCart 21 0 (by decide) [1, 2]
    (fun m r => rawReadBlock_length 16 m r) (fun m r k => readFlashAll_length m r k)
    (by decide)

/-- At an aligned address `erase_wrapper` makes the raw erase and nothing else,
whatever `readFlash` and `writeFlash` are. -/
theorem erase_wrapper_aligned {a x : Nat} (hp : IsPow2 a) (hx : x < U32) (h0 : x % a = 0)
    (fn : Mem → Nat → Mem) (readFlash : Mem → Nat → Nat → Nat × List Nat)
    (writeFlash : Mem → Nat → Nat → List Nat → Nat × Mem) (c : Cart) :
    erase_wrapper fn readFlash writeFlash a c x =
      some (a, { c with flash := fn c.flash x, log := c.log ++ [Call.rawErase x] }) := by
  unfold erase_wrapper
  simp only [round_eq hp hx, offset_eq hx, clamp_eq hp]
  simp [h0]

/-- The nested `erase_wrapper` does not call the `writeFlash` it is given, so a
`writeFlash` that erases at the start address of its write does not depend on
it when the write starts at an aligned address. -/
theorem writeFlashErasing_aligned {a r : Nat} (hp : IsPow2 a) (hr : r < U32) (h0 : r % a = 0)
    (inner : Mem → Nat → Nat → List Nat → Nat × Mem) (flash : Mem) (k : Nat)
    (buf : List Nat) :
    writeFlashErasing a inner flash r k buf
      = writeFlashAll (rawEraseBlock a flash r) r k buf := by
  unfold writeFlashErasing
  rw [erase_wrapper_aligned hp hr h0]

/-- C20. The erase/write re-entry is bounded when alignments line up: for
every power-of-two alignment and 32-bit address, rounding is idempotent; the
compensation write of `erase_wrapper(address)` is made at `round_addr` with
length `offset < alignment`; the nested `erase_wrapper` call at `round_addr` has
offset 0 and makes the raw erase and no `readFlash` or `writeFlash` call; and
with a `writeFlash` that erases through `erase_wrapper` of the same alignment at
the start address of its write, `erase_wrapper` returns with the recursion cut
off at nesting depth one exactly what it returns with any deeper cut-off. -/
theorem C20_reentry_bounded (alignment : Nat) (hp : IsPow2 alignment) (c : Cart)
    (address : Nat) (ha : address < U32) :
    PAGE_ROUND_DOWN (PAGE_ROUND_DOWN address alignment) alignment
        = PAGE_ROUND_DOWN address alignment
      ∧ sub32 address (PAGE_ROUND_DOWN address alignment) < alignment
      ∧ sub32 (PAGE_ROUND_DOWN address alignment)
          (PAGE_ROUND_DOWN (PAGE_ROUND_DOWN address alignment) alignment) = 0
      ∧ (∀ (c0 : Cart) (readFlash : Mem → Nat → Nat → Nat × List Nat)
          (inner : Mem → Nat → Nat → List Nat → Nat × Mem),
          ∃ c1, erase_wrapper (rawEraseBlock alignment) readFlash inner alignment c0
              (PAGE_ROUND_DOWN address alignment) = some (alignment, c1)
            ∧ c1.log = c0.log ++ [Call.rawErase (PAGE_ROUND_DOWN address alignment)])
      ∧ (∃ r c1, erase_wrapper (rawEraseBlock alignment) readFlashAll
            (writeFlashNest alignment 1) alignment c address = some (r, c1)
          ∧ (sub32 address (PAGE_ROUND_DOWN address alignment) ≠ 0 →
            ∃ bytes, c1.log = c.log ++
              [Call.readFlash (PAGE_ROUND_DOWN address alignment)
                  (sub32 address (PAGE_ROUND_DOWN address alignment)),
                Call.rawErase (PAGE_ROUND_DOWN address alignment),
                Call.writeFlash (PAGE_ROUND_DOWN address alignment)
                  (sub32 address (PAGE_ROUND_DOWN address alignment)) bytes])
          ∧ ∀ depth, erase_wrapper (rawEraseBlock alignment) readFlashAll
              (writeFlashNest alignment (depth + 1)) alignment c address = some (r, c1)) := by
  have hm := Nat.mod_lt address hp.pos
  have hle := Nat.mod_le address alignment
  have hr : address - address % alignment < U32 := by omega
  have h0 : (address - address % alignment) % alignment = 0 := round_mod
  rw [round_eq hp ha, round_eq hp hr, offset_eq ha, offset_eq hr, h0]
  refine ⟨by omega, hm, rfl, ?_, ?_⟩
  · intro c0 readFlash inner
    exact ⟨_, erase_wrapper_aligned hp hr h0 _ readFlash inner c0, rfl⟩
  · refine ⟨_, _, erase_wrapper_eq hp ha _ _ _ c (readFlashAll_length _ _ _), ?_, ?_⟩
    · intro h
      rw [if_pos h]
      exact ⟨_, rfl⟩
    · intro depth
      rw [erase_wrapper_eq hp ha _ _ _ c (readFlashAll_length _ _ _)]
      simp only [writeFlashNest, writeFlashErasing_aligned hp hr h0]

/-- Instance of C20: alignment 16, erase at address 19. -/
theorem C20_reentry_bounded_witness :
    PAGE_ROUND_DOWN (PAGE_ROUND_DOWN 19 16) 16 = PAGE_ROUND_DOWN 19 16
      ∧ sub32 19 (PAGE_ROUND_DOWN 19 16) < 16
      ∧ sub32 (PAGE_ROUND_DOWN 19 16) (PAGE_ROUND_DOWN (PAGE_ROUND_DOWN 19 16) 16) = 0
      ∧ (∀ (c0 : Cart) (readFlash : Mem → Nat → Nat → Nat × List Nat)
          (inner : Mem → Nat → Nat → List Nat → Nat × Mem),
          ∃ c1, erase_wrapper (rawEraseBlock 16) readFlash inner 16 c0
              (PAGE_ROUND_DOWN 19 16) = some (16, c1)
            ∧ c1.log = c0.log ++ [Call.rawErase (PAGE_ROUND_DOWN 19 16)])
      ∧ (∃ r c1, erase_wrapper (rawEraseBlock 16) readFlashAll
            (writeFlashNest 16 1) 16 rampCart 19 = some (r, c1)
          ∧ (sub32 19 (PAGE_ROUND_DOWN 19 16) ≠ 0 →
            ∃ bytes, c1.log = rampCart.log ++
              [Call.readFlash (PAGE_ROUND_DOWN 19 16) (sub32 19 (PAGE_ROUND_DOWN 19 16)),
                Call.rawErase (PAGE_ROUND_DOWN 19 16),
                Call.writeFlash (PAGE_ROUND_DOWN 19 16)
                  (sub32 19 (PAGE_ROUND_DOWN 19 16)) bytes])
          ∧ ∀ depth, erase_wrapper (rawEraseBlock 16) readFlashAll
              (writeFlashNest 16 (depth + 1)) 16 rampCart 19 = some (r, c1)) :=
  C20_reentry_bounded 16 ⟨4, by decide, by decide⟩ rampCart 19 (by decide)

end Flashcart
